import Mathlib

/-!
# Verification of the pip-boy map rendering pipeline

Shallow embedding of the map-rendering core of the `pip-boy` repository
(`src/pip-boy-tui/src/map/*.ts` and the unnamed source parts holding
`BrailleBuffer`, `TileSource` and `MapRenderer`), together with proofs
settling the frozen claims about it.

Numeric conventions: JavaScript number arithmetic on the rational-valued
code paths is embedded over `ℚ`; the transcendental Web-Mercator latitude
math is embedded over `ℝ` (for the round-trip law) and is abstracted into
explicit function parameters where it feeds state updates whose claimed
invariants do not depend on its value.  `Uint8Array` stores are taken mod
256 as in JS.  `Math.round` is `⌊x + 1/2⌋` (half toward +∞), matching JS.
-/

namespace PipBoy

/-- JS `Math.round`: round half toward +∞ (`Math.round(x) = ⌊x + 0.5⌋`). -/
def jsRound (q : ℚ) : ℤ := ⌊q + 1/2⌋

/-- `clamp` from `utils.ts`: `num <= min ? min : num >= max ? max : num`. -/
def clamp (num min max : ℚ) : ℚ :=
  if num ≤ min then min else if max ≤ num then max else num

-- ─────────────────────────────────────────────────────────────────────
-- Colour conversion (`utils.ts`): hex ↔ xterm-256
-- ─────────────────────────────────────────────────────────────────────

/-- Value of one hex digit character (`parseInt` base 16); `none` models `NaN`. -/
def hexVal (c : Char) : Option ℕ :=
  if 48 ≤ c.toNat ∧ c.toNat ≤ 57 then some (c.toNat - 48)
  else if 97 ≤ c.toNat ∧ c.toNat ≤ 102 then some (c.toNat - 97 + 10)
  else if 65 ≤ c.toNat ∧ c.toNat ≤ 70 then some (c.toNat - 65 + 10)
  else none

/-- `parseInt(s, 16)` on a non-empty all-hex string; `none` models `NaN`. -/
def parseHex : List Char → Option ℕ
  | [] => none
  | cs => cs.foldl (fun acc c =>
      match acc, hexVal c with
      | some a, some h => some (a * 16 + h)
      | _, _ => none) (some 0)

/-- `hex2rgb` from `utils.ts`: strip `#`, expand 3-digit shorthand, else parse
six hex digits and split into bytes.  `none` models the NaN-poisoned result
JS produces for an unparseable string. -/
def hex2rgb (color : List Char) : Option (ℕ × ℕ × ℕ) :=
  let c := if color.head? = some '#' then color.tail else color
  if c.length = 3 then
    match parseHex [c.getD 0 ' ', c.getD 0 ' '], parseHex [c.getD 1 ' ', c.getD 1 ' '],
          parseHex [c.getD 2 ' ', c.getD 2 ' '] with
    | some r, some g, some b => some (r, g, b)
    | _, _, _ => none
  else
    (parseHex c).map fun d => ((d >>> 16) &&& 255, (d >>> 8) &&& 255, d &&& 255)

/-- `rgb2xterm` from `utils.ts`: greyscale ramp for `r = g = b`, otherwise the
6×6×6 colour cube.  Arithmetic over ℚ with JS `Math.round`. -/
def rgb2xterm (r g b : ℕ) : ℤ :=
  if r = g ∧ g = b then
    if r < 8 then 16
    else if r > 248 then 231
    else jsRound (((r : ℚ) - 8) / 247 * 23) + 232
  else
    16 + 36 * jsRound ((r : ℚ) / 255 * 5) + 6 * jsRound ((g : ℚ) / 255 * 5)
      + jsRound ((b : ℚ) / 255 * 5)

/-- `hex2xterm` from `utils.ts` (`none` when the hex string is unparseable). -/
def hex2xterm (hex : List Char) : Option ℤ :=
  (hex2rgb hex).map fun rgb => rgb2xterm rgb.1 rgb.2.1 rgb.2.2

/-- The `basic` 16-colour table of `xterm2hex` as RGB triples. -/
def basic16 : List (ℕ × ℕ × ℕ) :=
  [(0x00,0x00,0x00), (0x80,0x00,0x00), (0x00,0x80,0x00), (0x80,0x80,0x00),
   (0x00,0x00,0x80), (0x80,0x00,0x80), (0x00,0x80,0x80), (0xc0,0xc0,0xc0),
   (0x80,0x80,0x80), (0xff,0x00,0x00), (0x00,0xff,0x00), (0xff,0xff,0x00),
   (0x00,0x00,0xff), (0xff,0x00,0xff), (0x00,0xff,0xff), (0xff,0xff,0xff)]

/-- Cube channel value in `xterm2hex`: `v === 0 ? 0 : 55 + v * 40`. -/
def cubeChannel (v : ℕ) : ℕ := if v = 0 then 0 else 55 + v * 40

/-- The numeric core of `xterm2hex` from `utils.ts`: the RGB triple whose hex
rendering the function returns (out-of-range index ↦ black, 0–15 basic table,
16–231 cube, 232–255 greyscale ramp `8 + (index - 232) * 10`). -/
def xterm2rgb (index : ℤ) : ℕ × ℕ × ℕ :=
  if index < 0 ∨ index > 255 then (0, 0, 0)
  else if index < 16 then basic16.getD index.toNat (0, 0, 0)
  else if index < 232 then
    let i := index.toNat - 16
    (cubeChannel (i / 36), cubeChannel ((i % 36) / 6), cubeChannel (i % 6))
  else
    let grey := 8 + (index.toNat - 232) * 10
    (grey, grey, grey)

/-- Lower-case hex digit character for a value `< 16`. -/
def hexDigit (n : ℕ) : Char :=
  if n < 10 then Char.ofNat ('0'.toNat + n) else Char.ofNat ('a'.toNat + n - 10)

/-- `v.toString(16).padStart(2, "0")` for a byte value. -/
def hexByte (v : ℕ) : List Char := [hexDigit (v / 16), hexDigit (v % 16)]

/-- `xterm2hex` from `utils.ts`: the `#rrggbb` string for an xterm index. -/
def xterm2hex (index : ℤ) : List Char :=
  let (r, g, b) := xterm2rgb index
  '#' :: (hexByte r ++ hexByte g ++ hexByte b)

-- ─────────────────────────────────────────────────────────────────────
-- BrailleBuffer (braille-buffer.ts): pixel buffer → braille characters
-- ─────────────────────────────────────────────────────────────────────

/-- Decimal digit characters of a natural number (JS `${n}` interpolation). -/
def natChars (n : ℕ) : List Char :=
  if h : n < 10 then [Char.ofNat (48 + n)]
  else natChars (n / 10) ++ [Char.ofNat (48 + n % 10)]
decreasing_by exact Nat.div_lt_self (by omega) (by omega)

/-- The ANSI escape character `\x1B`. -/
def escChar : Char := Char.ofNat 27

/-- `BRAILLE_MAP` from `braille-buffer.ts`: dot bit mask by (row, col) in cell. -/
def brailleMap : List (List ℕ) := [[0x01, 0x08], [0x02, 0x10], [0x04, 0x20], [0x40, 0x80]]

/-- `BRAILLE_MAP[y & 3][x & 1]` (coordinates are in-bounds, hence nonnegative,
wherever this is consulted, so `& 3` is `% 4`). -/
def brailleMask (x y : ℤ) : ℕ :=
  (brailleMap.getD (y % 4).toNat []).getD (x % 2).toNat 0

/-- The `BrailleBuffer` state: parallel per-cell arrays exactly as in the
source (`Uint8Array` dot bits / foreground / background, plus the override
glyph array and the global background colour).  Glyphs are `List Char`. -/
structure BrailleBuffer where
  width : ℕ
  height : ℕ
  charWidth : ℕ
  charHeight : ℕ
  pixel : List ℕ
  fg : List ℕ
  bg : List ℕ
  ch : List (Option (List Char))
  globalBackground : ℕ
  deriving DecidableEq

/-- The `BrailleBuffer` constructor: dimensions rounded down to braille cell
boundaries, all cells zeroed. -/
def mkBuffer (width height : ℕ) : BrailleBuffer :=
  let w := width - width % 2
  let h := height - height % 4
  let cw := w / 2
  let chh := h / 4
  let n := cw * chh
  ⟨w, h, cw, chh, List.replicate n 0, List.replicate n 0, List.replicate n 0,
    List.replicate n none, 0⟩

/-- `clear()`: zero every per-cell array (the global background colour is a
separate field and is not touched by `clear`). -/
def BrailleBuffer.clear (b : BrailleBuffer) : BrailleBuffer :=
  let n := b.charWidth * b.charHeight
  { b with pixel := List.replicate n 0, fg := List.replicate n 0,
           bg := List.replicate n 0, ch := List.replicate n none }

/-- `_cellIndex(x, y) = (x >> 1) + charWidth * (y >> 2)` (nonnegative coords). -/
def BrailleBuffer.cellIndex (b : BrailleBuffer) (x y : ℤ) : ℕ :=
  (x / 2).toNat + b.charWidth * (y / 4).toNat

/-- The bounds test every pixel-addressed mutator performs first
(`x < 0 || x >= width || y < 0 || y >= height`). -/
def BrailleBuffer.oob (b : BrailleBuffer) (x y : ℤ) : Prop :=
  x < 0 ∨ (b.width : ℤ) ≤ x ∨ y < 0 ∨ (b.height : ℤ) ≤ y

instance (b : BrailleBuffer) (x y : ℤ) : Decidable (b.oob x y) := by
  unfold BrailleBuffer.oob; infer_instance

/-- `setPixel`: OR the cell's dot bit, record the colour as cell foreground
(`Uint8Array` stores take the value mod 256). -/
def BrailleBuffer.setPixel (b : BrailleBuffer) (x y : ℤ) (color : ℕ) : BrailleBuffer :=
  if b.oob x y then b
  else
    let idx := b.cellIndex x y
    let mask := brailleMask x y
    { b with pixel := b.pixel.set idx (b.pixel.getD idx 0 ||| mask),
             fg := b.fg.set idx (color % 256) }

/-- `unsetPixel`: AND-NOT the cell's dot bit (`p & ~mask` stored back into the
`Uint8Array`, i.e. `p &&& (255 ^^^ mask)` for byte-sized `p`). -/
def BrailleBuffer.unsetPixel (b : BrailleBuffer) (x y : ℤ) : BrailleBuffer :=
  if b.oob x y then b
  else
    let idx := b.cellIndex x y
    let mask := brailleMask x y
    { b with pixel := b.pixel.set idx (b.pixel.getD idx 0 &&& (255 ^^^ mask)) }

/-- `setBackground`: set the cell's background colour. -/
def BrailleBuffer.setBackground (b : BrailleBuffer) (x y : ℤ) (color : ℕ) : BrailleBuffer :=
  if b.oob x y then b
  else { b with bg := b.bg.set (b.cellIndex x y) (color % 256) }

/-- `setChar`: override the cell's glyph and set its foreground colour. -/
def BrailleBuffer.setChar (b : BrailleBuffer) (char : List Char) (x y : ℤ)
    (color : ℕ) : BrailleBuffer :=
  if b.oob x y then b
  else
    let idx := b.cellIndex x y
    { b with ch := b.ch.set idx (some char), fg := b.fg.set idx (color % 256) }

/-- `writeText`: one `setChar` per character, two pixels apart; when centred the
start is shifted left by `text.length + 1`. -/
def BrailleBuffer.writeText (b : BrailleBuffer) (text : List Char) (x y : ℤ)
    (color : ℕ) (center : Bool := true) : BrailleBuffer :=
  let x0 := if center then x - ((text.length : ℤ) + 1) else x
  (List.range text.length).foldl
    (fun acc i => acc.setChar [text.getD i ' '] (x0 + 2 * (i : ℤ)) y color) b

/-- The braille character for a cell's dot bits (`U+2800 + bits`). -/
def brailleChar (bits : ℕ) : Char := Char.ofNat (0x2800 + bits)

/-- `_termColor`: the ANSI colour-change escape sequence for a cell
(`bg || globalBackground` effective background, four truthiness cases). -/
def termColor (fg bg gb : ℕ) : List Char :=
  let ebg := if bg ≠ 0 then bg else gb
  if fg ≠ 0 ∧ ebg ≠ 0 then
    escChar :: '[' :: ('3' :: '8' :: ';' :: '5' :: ';' :: natChars fg)
      ++ (';' :: '4' :: '8' :: ';' :: '5' :: ';' :: natChars ebg) ++ ['m']
  else if fg ≠ 0 then
    escChar :: '[' :: ('4' :: '9' :: ';' :: '3' :: '8' :: ';' :: '5' :: ';' :: natChars fg) ++ ['m']
  else if ebg ≠ 0 then
    escChar :: '[' :: ('3' :: '9' :: ';' :: '4' :: '8' :: ';' :: '5' :: ';' :: natChars ebg) ++ ['m']
  else escChar :: '[' :: ('3' :: '9' :: ';' :: '4' :: '9' :: []) ++ ['m']

/-- The `\x1B[39;49m` reset appended at the end of every ANSI line. -/
def termReset : List Char := escChar :: '[' :: '3' :: '9' :: ';' :: '4' :: '9' :: 'm' :: []

/-- One row of `toPlainLines()`: the glyph/braille emission loop with its
`skip` counter for multi-width override glyphs. -/
def plainRowGo (b : BrailleBuffer) (cy : ℕ) : List ℕ → ℕ → List Char
  | [], _ => []
  | cx :: rest, skip =>
    let idx := cy * b.charWidth + cx
    match b.ch.getD idx none with
    | some g =>
      if skip > 0 then plainRowGo b cy rest (skip - 1)
      else g ++ plainRowGo b cy rest (skip + (if g.length > 1 then g.length - 1 else 0))
    | none =>
      if skip > 0 then plainRowGo b cy rest (skip - 1)
      else brailleChar (b.pixel.getD idx 0) :: plainRowGo b cy rest skip

/-- `toPlainLines()`: plain braille text, no ANSI codes. -/
def BrailleBuffer.toPlainLines (b : BrailleBuffer) : List (List Char) :=
  (List.range b.charHeight).map fun cy => plainRowGo b cy (List.range b.charWidth) 0

/-- One cell of `toColoredCells()` output. -/
structure ColoredCell where
  char : List Char
  fgHex : List Char
  deriving DecidableEq

/-- One row of `toColoredCells()`: same loop, emitting `{char, fgHex}` cells. -/
def coloredRowGo (b : BrailleBuffer) (cy : ℕ) : List ℕ → ℕ → List ColoredCell
  | [], _ => []
  | cx :: rest, skip =>
    let idx := cy * b.charWidth + cx
    let fgColor := b.fg.getD idx 0
    let hx := if fgColor ≠ 0 then xterm2hex (fgColor : ℤ)
              else '#' :: '0' :: '0' :: '0' :: '0' :: '0' :: '0' :: []
    match b.ch.getD idx none with
    | some g =>
      if skip > 0 then coloredRowGo b cy rest (skip - 1)
      else ⟨g, hx⟩ :: coloredRowGo b cy rest (skip + (if g.length > 1 then g.length - 1 else 0))
    | none =>
      if skip > 0 then coloredRowGo b cy rest (skip - 1)
      else ⟨[brailleChar (b.pixel.getD idx 0)], hx⟩ :: coloredRowGo b cy rest skip

/-- `toColoredCells()`: per-cell char and foreground hex colour. -/
def BrailleBuffer.toColoredCells (b : BrailleBuffer) : List (List ColoredCell) :=
  (List.range b.charHeight).map fun cy => coloredRowGo b cy (List.range b.charWidth) 0

/-- One row of `toLines()`: the same loop, but first emitting the cell's
colour escape whenever it differs from `currentColor` (which threads across
the whole buffer, not per row).  Returns the row text and the new
`currentColor`. -/
def ansiRowGo (b : BrailleBuffer) (cy : ℕ) :
    List ℕ → ℕ → Option (List Char) → List Char × Option (List Char)
  | [], _, cur => ([], cur)
  | cx :: rest, skip, cur =>
    let idx := cy * b.charWidth + cx
    let code := termColor (b.fg.getD idx 0) (b.bg.getD idx 0) b.globalBackground
    let emitted : List Char := if cur ≠ some code then code else []
    match b.ch.getD idx none with
    | some g =>
      if skip > 0 then
        let (t, c) := ansiRowGo b cy rest (skip - 1) (some code)
        (emitted ++ t, c)
      else
        let (t, c) := ansiRowGo b cy rest
          (skip + (if g.length > 1 then g.length - 1 else 0)) (some code)
        (emitted ++ g ++ t, c)
    | none =>
      if skip > 0 then
        let (t, c) := ansiRowGo b cy rest (skip - 1) (some code)
        (emitted ++ t, c)
      else
        let (t, c) := ansiRowGo b cy rest skip (some code)
        (emitted ++ brailleChar (b.pixel.getD idx 0) :: t, c)

/-- The row loop of `toLines()`, threading `currentColor` across rows and
appending the reset sequence to every row. -/
def toLinesGo (b : BrailleBuffer) : List ℕ → Option (List Char) → List (List Char)
  | [], _ => []
  | cy :: rest, cur =>
    let (t, c) := ansiRowGo b cy (List.range b.charWidth) 0 cur
    (t ++ termReset) :: toLinesGo b rest c

/-- `toLines()`: ANSI-coloured lines. -/
def BrailleBuffer.toLines (b : BrailleBuffer) : List (List Char) :=
  toLinesGo b (List.range b.charHeight) none

/-- ANSI stripper: drop every `ESC ... m` run (the state machine reading of
"stripping the ANSI escape sequences"). -/
def stripAnsiGo (inEsc : Bool) : List Char → List Char
  | [] => []
  | c :: rest =>
    if inEsc then (if c = 'm' then stripAnsiGo false rest else stripAnsiGo true rest)
    else (if c = escChar then stripAnsiGo true rest else c :: stripAnsiGo false rest)

/-- Strip ANSI escape sequences from a string. -/
def stripAnsi (s : List Char) : List Char := stripAnsiGo false s

/-- The mutator calls of claim C5, with their arguments. -/
inductive BufOp where
  | setPixel (x y : ℤ) (color : ℕ)
  | unsetPixel (x y : ℤ)
  | setBackground (x y : ℤ) (color : ℕ)
  | setChar (char : List Char) (x y : ℤ) (color : ℕ)
  | writeText (text : List Char) (x y : ℤ) (color : ℕ) (center : Bool)

/-- Apply one buffer mutator. -/
def applyBufOp (b : BrailleBuffer) : BufOp → BrailleBuffer
  | .setPixel x y c => b.setPixel x y c
  | .unsetPixel x y => b.unsetPixel x y
  | .setBackground x y c => b.setBackground x y c
  | .setChar s x y c => b.setChar s x y c
  | .writeText s x y c center => b.writeText s x y c center

/-- A glyph argument is a visible glyph: it contains no raw ESC character. -/
def escFreeOp : BufOp → Prop
  | .setChar s _ _ _ => escChar ∉ s
  | .writeText s _ _ _ _ => escChar ∉ s
  | _ => True

instance : DecidablePred escFreeOp := fun op => by
  cases op <;> (unfold escFreeOp; infer_instance)

/-- Buffer invariant: dimensions consistent, per-cell arrays of the right
length, byte-sized `Uint8Array` contents, and ESC-free override glyphs. -/
def BufferWF (b : BrailleBuffer) : Prop :=
  b.width = 2 * b.charWidth ∧ b.height = 4 * b.charHeight ∧
  b.pixel.length = b.charWidth * b.charHeight ∧
  b.fg.length = b.charWidth * b.charHeight ∧
  b.bg.length = b.charWidth * b.charHeight ∧
  b.ch.length = b.charWidth * b.charHeight ∧
  (∀ v ∈ b.pixel, v < 256) ∧
  (∀ o ∈ b.ch, ∀ g, o = some g → escChar ∉ g)

instance (b : BrailleBuffer) : Decidable (BufferWF b) := by
  unfold BufferWF; infer_instance

-- ─────────────────────────────────────────────────────────────────────
-- Canvas (canvas.ts): polygon fill via triangulation
-- ─────────────────────────────────────────────────────────────────────

/-- `_bresenhamPoints` loop body: emit the current point, stop at the target,
else advance by the error term.  `fuel` bounds the classic Bresenham loop,
which takes `max(dx, dy)` steps between integer endpoints; callers pass
`dx + dy + 1`, which always suffices. -/
def bresGo (tx ty dx dy sx sy : ℤ) : ℕ → ℤ → ℤ → ℤ → List (ℤ × ℤ)
  | 0, _, _, _ => []
  | fuel+1, x, y, err =>
    (x, y) :: (if x = tx ∧ y = ty then [] else
      let e2 := 2 * err
      let (x', err') := if e2 > -dy then (x + sx, err - dy) else (x, err)
      let (y', err'') := if e2 < dx then (y + sy, err' + dx) else (y, err')
      bresGo tx ty dx dy sx sy fuel x' y' err'')

/-- `_bresenhamPoints(ax, ay, bx, by)` from `canvas.ts`. -/
def bresenhamPoints (ax ay bx bY : ℤ) : List (ℤ × ℤ) :=
  let dx := |bx - ax|
  let dy := |bY - ay|
  let sx : ℤ := if ax < bx then 1 else -1
  let sy : ℤ := if ay < bY then 1 else -1
  bresGo bx bY dx dy sx sy (dx + dy + 1).toNat ax ay (dx - dy)

/-- The ordering `(a, b) => a.y === b.y ? a.x - b.x : a.y - b.y` used to sort
triangle boundary points. -/
def ptLe (p q : ℤ × ℤ) : Prop := p.2 < q.2 ∨ (p.2 = q.2 ∧ p.1 ≤ q.1)

instance : DecidableRel ptLe := fun p q => by unfold ptLe; infer_instance

/-- The horizontal fill `for (x = max(0,p.x); x <= min(width-1,next.x); x++)`
of `_filledTriangle`. -/
def fillRow (w : ℕ) (p q : ℤ × ℤ) (color : ℕ) (b : BrailleBuffer) : BrailleBuffer :=
  let left := max 0 p.1
  let right := min ((w:ℤ) - 1) q.1
  (List.range (right + 1 - left).toNat).foldl
    (fun acc i => acc.setPixel (left + (i:ℤ)) p.2 color) b

/-- The pairwise scan of `_filledTriangle`: same-row neighbours fill the span
between them, others plot a single pixel. -/
def scanPairs (w : ℕ) (color : ℕ) : List (ℤ × ℤ) → BrailleBuffer → BrailleBuffer
  | [], b => b
  | [p], b => b.setPixel p.1 p.2 color
  | p :: q :: rest, b =>
    if p.2 = q.2 then scanPairs w color (q :: rest) (fillRow w p q color b)
    else scanPairs w color (q :: rest) (b.setPixel p.1 p.2 color)

/-- `_filledTriangle` from `canvas.ts`: walk the three Bresenham edges, keep
rows inside the canvas, sort by (y, x), then scan-fill. -/
def filledTriangle (w h : ℕ) (pa pb pc : ℤ × ℤ) (color : ℕ)
    (b : BrailleBuffer) : BrailleBuffer :=
  let edgeA := bresenhamPoints pb.1 pb.2 pc.1 pc.2
  let edgeB := bresenhamPoints pa.1 pa.2 pc.1 pc.2
  let edgeC := bresenhamPoints pa.1 pa.2 pb.1 pb.2
  let pts := ((edgeA ++ edgeB ++ edgeC).filter
    (fun p => 0 ≤ p.2 ∧ p.2 < (h:ℤ))).insertionSort ptLe
  scanPairs w color pts b

/-- The vertex/hole accumulation loop of `Canvas.polygon`: a first ring with
fewer than 3 points aborts (`none`); later short rings are skipped; later
full rings record a hole offset then append their coordinates. -/
def polyVerts : List (List (ℤ × ℤ)) → List ℤ → List ℕ → Option (List ℤ × List ℕ)
  | [], verts, holes => some (verts, holes)
  | ring :: rest, verts, holes =>
    if verts.length ≠ 0 then
      if ring.length < 3 then polyVerts rest verts holes
      else polyVerts rest (verts ++ ring.flatMap (fun p => [p.1, p.2]))
        (holes ++ [verts.length / 2])
    else
      if ring.length < 3 then none
      else polyVerts rest (verts ++ ring.flatMap (fun p => [p.1, p.2])) holes

/-- `_extractVertex(vertices, idx)`. -/
def extractVertex (verts : List ℤ) (idx : ℕ) : ℤ × ℤ :=
  (verts.getD (idx * 2) 0, verts.getD (idx * 2 + 1) 0)

/-- Group the earcut output into index triples (`for i; i += 3`). -/
def triTriples : List ℕ → List (ℕ × ℕ × ℕ)
  | a :: b :: c :: rest => (a, b, c) :: triTriples rest
  | _ => []

/-- `Canvas.polygon` from `canvas.ts`, parameterised over the external
`earcut` triangulator (`.error` models a thrown exception, caught by the
`try`/`catch` around the call).  Returns the JS boolean result and the
buffer. -/
def canvasPolygon (earcutFn : List ℤ → Option (List ℕ) → Except Unit (List ℕ))
    (w h : ℕ) (rings : List (List (ℤ × ℤ))) (color : ℕ) (b : BrailleBuffer) :
    Bool × BrailleBuffer :=
  match polyVerts rings [] [] with
  | none => (false, b)
  | some (verts, holes) =>
    match earcutFn verts (if holes.length ≠ 0 then some holes else none) with
    | .error _ => (false, b)
    | .ok triangles =>
      (true, (triTriples triangles).foldl
        (fun acc t => filledTriangle w h (extractVertex verts t.1)
          (extractVertex verts t.2.1) (extractVertex verts t.2.2) color acc) b)

-- ─────────────────────────────────────────────────────────────────────
-- TileSource (tile-source, unnamed part) and tile decoding (tile-parser.ts)
-- ─────────────────────────────────────────────────────────────────────

/-- `isGzipped` from `tile-parser.ts`: gzip magic bytes `0x1f 0x8b`. -/
def isGzipped (buffer : List ℕ) : Bool :=
  decide (2 ≤ buffer.length ∧ buffer.getD 0 0 = 0x1f ∧ buffer.getD 1 0 = 0x8b)

/-- `parseTile` from `tile-parser.ts`, from the error-flow point of view.
The external decoders are parameters: `gunzip` models `gunzipSync` (throws =
`.error` on corrupt gzip data), `decode` models
`new VectorTile(new Pbf(data))` together with the per-layer feature loop
(geometry loads included; throws = `.error` on unparseable protobuf data),
producing the `ParsedTile` (abstract type `τ`).  Note the source wraps none
of this in `try`/`catch`: an error simply propagates. -/
def parseTileE {τ : Type} (gunzip : List ℕ → Except Unit (List ℕ))
    (decode : List ℕ → Except Unit τ) (buffer : List ℕ) : Except Unit τ :=
  match (if isGzipped buffer then gunzip buffer else .ok buffer) with
  | .error e => .error e
  | .ok data => decode data

/-- The tile cache owned by `TileSource`: the JS `Map` as an insertion-ordered
association list, the `cacheOrder` queue, and `cacheSize` (default 32). -/
structure TileCache (τ : Type) where
  cache : List (String × τ)
  order : List String
  size : ℕ

/-- A fresh `TileSource` cache (`cacheSize` option, default 32). -/
def initCache (τ : Type) (size : ℕ := 32) : TileCache τ := ⟨[], [], size⟩

/-- The cache key `` `${z}-${x}-${y}` ``. -/
def tileKey (z x y : ℕ) : String :=
  toString z ++ "-" ++ toString x ++ "-" ++ toString y

/-- JS `Map.get`. -/
def mapGet {τ : Type} (m : List (String × τ)) (k : String) : Option τ :=
  (m.find? (fun p => p.1 = k)).map Prod.snd

/-- JS `Map.set`: update in place if present, else append (insertion order). -/
def mapSet {τ : Type} (m : List (String × τ)) (k : String) (v : τ) : List (String × τ) :=
  if (m.find? (fun p => p.1 = k)).isSome then
    m.map (fun p => if p.1 = k then (k, v) else p)
  else m ++ [(k, v)]

/-- The eviction loop of `_cacheSet`: while over capacity, shift the oldest
key off the queue and delete it from the map. -/
def evictLoop {τ : Type} (size : ℕ) : List (String × τ) → List String →
    List (String × τ) × List String
  | cache, [] => (cache, [])
  | cache, k :: rest =>
    if size < (k :: rest).length then evictLoop size (cache.eraseP (fun p => p.1 = k)) rest
    else (cache, k :: rest)

/-- `_cacheSet` from the tile source: insert, enqueue, then evict while over
capacity. -/
def cacheSet {τ : Type} (s : TileCache τ) (key : String) (tile : τ) : TileCache τ :=
  let r := evictLoop s.size (mapSet s.cache key tile) (s.order ++ [key])
  { s with cache := r.1, order := r.2 }

/-- `TileSource.getTile(z, x, y)`: serve from cache, else fetch raw bytes
(`fetch` models `_getMBTile`/`_getHTTP`, both of which fail soft to an empty
buffer and so are total) and decode via `parseTile` — whose error, if any,
propagates out of `getTile` uncaught.  The `Bool` records whether a decode
was performed. -/
def getTile {τ : Type} (gunzip : List ℕ → Except Unit (List ℕ))
    (decode : List ℕ → Except Unit τ) (fetch : ℕ → ℕ → ℕ → List ℕ)
    (s : TileCache τ) (z x y : ℕ) : Except Unit (τ × TileCache τ × Bool) :=
  match mapGet s.cache (tileKey z x y) with
  | some cached => .ok (cached, s, false)
  | none =>
    match parseTileE gunzip decode (fetch z x y) with
    | .error e => .error e
    | .ok parsed => .ok (parsed, cacheSet s (tileKey z x y) parsed, true)

/-- The per-tile `try { tile.data = await getTile(...) } catch { }` wrapper in
`MapRenderer.draw`: a thrown decode error is absorbed and the tile is simply
left without data. -/
def drawFetchTile {τ : Type} (gunzip : List ℕ → Except Unit (List ℕ))
    (decode : List ℕ → Except Unit τ) (fetch : ℕ → ℕ → ℕ → List ℕ)
    (s : TileCache τ) (z x y : ℕ) : Option τ :=
  match getTile gunzip decode fetch s z x y with
  | .ok (t, _, _) => some t
  | .error _ => none

/-- One `getTile` call as a cache-state step (errors leave the cache as they
found it, since the exception propagates before `_cacheSet`). -/
def runTile {τ : Type} (gunzip : List ℕ → Except Unit (List ℕ))
    (decode : List ℕ → Except Unit τ) (fetch : ℕ → ℕ → ℕ → List ℕ)
    (s : TileCache τ) (c : ℕ × ℕ × ℕ) : TileCache τ :=
  match getTile gunzip decode fetch s c.1 c.2.1 c.2.2 with
  | .ok (_, s', _) => s'
  | .error _ => s

/-- A sequence of `getTile` calls. -/
def runTiles {τ : Type} (gunzip : List ℕ → Except Unit (List ℕ))
    (decode : List ℕ → Except Unit τ) (fetch : ℕ → ℕ → ℕ → List ℕ)
    (calls : List (ℕ × ℕ × ℕ)) (s : TileCache τ) : TileCache τ :=
  calls.foldl (runTile gunzip decode fetch) s

/-- Cache well-formedness: the map's keys in order are exactly the eviction
queue, with no duplicates. -/
def CacheWF {τ : Type} (s : TileCache τ) : Prop :=
  s.cache.map Prod.fst = s.order ∧ s.order.Nodup

-- ─────────────────────────────────────────────────────────────────────
-- MapRenderer (unnamed part 004): viewport state and mutators, over ℚ
-- ─────────────────────────────────────────────────────────────────────

/-- A latitude/longitude pair (JS `LatLon`), embedded over ℚ. -/
structure LatLon where
  lat : ℚ
  lon : ℚ
  deriving DecidableEq

/-- `normalize` from `utils.ts`: one conditional ±360 longitude wrap (note:
only a single wrap in each direction), then the Mercator latitude clamp. -/
def normalizeLL (ll : LatLon) : LatLon :=
  let lon1 := if ll.lon < -180 then ll.lon + 360 else ll.lon
  let lon2 := if lon1 > 180 then lon1 - 360 else lon1
  { lat := clamp ll.lat (-85.0511) 85.0511, lon := lon2 }

/-- `baseZoom(zoom, maxZoom = 14) = min(maxZoom, max(0, floor(zoom)))`. -/
def baseZoomQ (zoom : ℚ) (maxZoom : ℤ := 14) : ℤ := min maxZoom (max 0 ⌊zoom⌋)

/-- The irrational/transcendental primitives the renderer's pan path calls,
abstracted as parameters: `tsz` is `tileSizeAtZoom` (`256 * 2^(zoom -
baseZoom zoom)`, irrational for fractional zoom), `mercY lat z` the Mercator
forward `y` of `ll2tile`, `invLat y z` the latitude of `tile2ll` — their
values never affect the claimed invariants, which rest on `normalize`. -/
structure MercModel where
  tsz : ℚ → ℚ
  mercY : ℚ → ℤ → ℚ
  invLat : ℚ → ℤ → ℚ

/-- A trivial instantiation of the abstract Mercator primitives (used by
concrete witnesses; `tsz` is 256 as at integer zoom). -/
def mercModel0 : MercModel := ⟨fun _ => 256, fun _ _ => 0, fun _ _ => 0⟩

/-- The renderer's mutable viewport state: `state.center`, `state.zoom`, and
the waypoint overlay. -/
structure RendererQ where
  center : LatLon
  zoom : ℚ
  waypoint : Option LatLon
  deriving DecidableEq

/-- The constructor's default state (Dublin, zoom 12). -/
def rendererDefault : RendererQ := ⟨⟨53.3498, -6.2603⟩, 12, none⟩

/-- `MAX_ZOOM` (18), `MIN_ZOOM` (0), `ZOOM_STEP` (0.5), `PAN_PIXELS` (32). -/
def MAX_ZOOM : ℚ := 18
def MIN_ZOOM : ℚ := 0
def ZOOM_STEP : ℚ := 1/2
def PAN_PIXELS : ℚ := 32

/-- `pan(dx, dy)`: convert the centre through `ll2tile` at the base zoom, add
the pixel delta over the tile size, convert back and re-normalise.  The `x`
coordinate is the exact rational Mercator formula; the `y`/latitude path goes
through the abstract `MercModel`. -/
def panQ (m : MercModel) (r : RendererQ) (dx dy : ℚ) : RendererQ :=
  let z := baseZoomQ r.zoom
  let tileSize := m.tsz r.zoom
  let cx := (r.center.lon + 180) / 360 * (2:ℚ)^z + dx / tileSize
  let cy := m.mercY r.center.lat z + dy / tileSize
  let lon := cx / (2:ℚ)^z * 360 - 180
  let lat := m.invLat cy z
  { r with center := normalizeLL ⟨lat, lon⟩ }

/-- `zoomIn()`: `min(MAX_ZOOM, zoom + ZOOM_STEP)`. -/
def zoomInQ (r : RendererQ) : RendererQ := { r with zoom := min MAX_ZOOM (r.zoom + ZOOM_STEP) }

/-- `zoomOut()`: `max(MIN_ZOOM, zoom - ZOOM_STEP)`. -/
def zoomOutQ (r : RendererQ) : RendererQ := { r with zoom := max MIN_ZOOM (r.zoom - ZOOM_STEP) }

/-- `centerOn(ll)`. -/
def centerOnQ (r : RendererQ) (ll : LatLon) : RendererQ :=
  { r with center := normalizeLL ll }

/-- `setWaypoint(ll)`. -/
def setWaypointQ (r : RendererQ) (ll : LatLon) : RendererQ :=
  { r with waypoint := some (normalizeLL ll) }

/-- `min`/`max` accumulation of `fitBounds` (`if (p.lat < minLat) ...` over
every point, starting from `±Infinity`; with a nonempty list this equals
folding from the first element's value). -/
def foldMinQ (l : List ℚ) (init : ℚ) : ℚ := l.foldl (fun a v => if v < a then v else a) init
def foldMaxQ (l : List ℚ) (init : ℚ) : ℚ := l.foldl (fun a v => if v > a then v else a) init

/-- `fitBounds(points, padding = 0.2)`: centre on the bounding-box midpoint,
then pick the zoom from the span bucket table; the compared span is the raw
bounding-box span inflated by `(1 + padding)`. -/
def fitBoundsQ (r : RendererQ) (points : List LatLon) (padding : ℚ := 1/5) : RendererQ :=
  match points with
  | [] => r
  | p :: rest =>
    let minLat := foldMinQ (rest.map LatLon.lat) p.lat
    let maxLat := foldMaxQ (rest.map LatLon.lat) p.lat
    let minLon := foldMinQ (rest.map LatLon.lon) p.lon
    let maxLon := foldMaxQ (rest.map LatLon.lon) p.lon
    let center := normalizeLL ⟨(minLat + maxLat) / 2, (minLon + maxLon) / 2⟩
    let latSpan := (maxLat - minLat) * (1 + padding)
    let lonSpan := (maxLon - minLon) * (1 + padding)
    let span := max latSpan lonSpan
    let zoom : ℚ :=
      if span < 1/1000 then 17
      else if span < 5/1000 then 16
      else if span < 1/100 then 15
      else if span < 5/100 then 13
      else if span < 1/10 then 12
      else if span < 1/2 then 10
      else if span < 1 then 9
      else if span < 2 then 8
      else if span < 5 then 7
      else if span < 10 then 6
      else 5
    { r with center := center, zoom := zoom }

/-- The renderer mutator calls of claim C4, with arbitrary arguments. -/
inductive RMutator where
  | pan (dx dy : ℚ)
  | panLeft | panRight | panUp | panDown
  | zoomIn | zoomOut
  | centerOn (ll : LatLon)
  | setWaypoint (ll : LatLon)
  | fitBounds (points : List LatLon) (padding : ℚ)

/-- Apply one renderer mutator (`panLeft` etc. are `pan(±PAN_PIXELS, ·)`). -/
def applyRMutator (m : MercModel) (r : RendererQ) : RMutator → RendererQ
  | .pan dx dy => panQ m r dx dy
  | .panLeft => panQ m r (-PAN_PIXELS) 0
  | .panRight => panQ m r PAN_PIXELS 0
  | .panUp => panQ m r 0 (-PAN_PIXELS)
  | .panDown => panQ m r 0 PAN_PIXELS
  | .zoomIn => zoomInQ r
  | .zoomOut => zoomOutQ r
  | .centerOn ll => centerOnQ r ll
  | .setWaypoint ll => setWaypointQ r ll
  | .fitBounds points padding => fitBoundsQ r points padding

/-- The zoom/latitude part of the claimed `MapState` invariant. -/
def ZoomLatInv (r : RendererQ) : Prop :=
  MIN_ZOOM ≤ r.zoom ∧ r.zoom ≤ MAX_ZOOM ∧
  -85.0511 ≤ r.center.lat ∧ r.center.lat ≤ 85.0511

-- ─────────────────────────────────────────────────────────────────────
-- MapRenderer draw latch (claim C2)
-- ─────────────────────────────────────────────────────────────────────

/-- The renderer state visible to `draw()`: the shared canvas (a
`BrailleBuffer` via `Canvas`), the label index, the `isDrawing` latch and the
viewport state. -/
structure RendererDrawState where
  canvas : BrailleBuffer
  labels : List (ℤ × ℤ × ℤ × ℤ)
  isDrawing : Bool
  center : LatLon
  zoom : ℚ

/-- The `RenderResult` record `draw()` returns; the scale-bar string is
produced by `_scaleBar` (cosine-based `metersPerPixel`), abstracted as the
`scaleFn` parameter. -/
structure RenderResultQ where
  lines : List (List Char)
  plainLines : List (List Char)
  coloredCells : List (List ColoredCell)
  center : LatLon
  zoom : ℚ
  scale : List Char
  deriving DecidableEq

/-- The result object `draw()` builds from the current canvas and state (both
the busy early return and the end-of-frame return construct exactly this). -/
def exportResult (scaleFn : ℚ → ℚ → List Char) (r : RendererDrawState) : RenderResultQ :=
  ⟨r.canvas.toLines, r.canvas.toPlainLines, r.canvas.toColoredCells,
   r.center, r.zoom, scaleFn r.zoom r.center.lat⟩

/-- The `if (this.isDrawing)` early-return branch of `draw()`: export the
shared canvas as it stands right now. -/
def drawBusy (scaleFn : ℚ → ℚ → List Char) (r : RendererDrawState) : RenderResultQ :=
  exportResult scaleFn r

/-- The synchronous prefix of a non-busy `draw()` up to the first `await`:
set the latch, clear the label index, set the background colour from the
compiled `background` rule (when present), and clear the canvas.  A second
`draw()` arriving during the tile-fetch `await` observes exactly this
state. -/
def drawPrefix (bgColor : Option ℕ) (r : RendererDrawState) : RendererDrawState :=
  { r with isDrawing := true,
           labels := [],
           canvas := BrailleBuffer.clear
             (match bgColor with
              | some c => { r.canvas with globalBackground := c }
              | none => r.canvas) }

-- ─────────────────────────────────────────────────────────────────────
-- Web Mercator over ℝ (utils.ts ll2tile / tile2ll), for the round-trip law
-- ─────────────────────────────────────────────────────────────────────

/-- `ll2tile` x coordinate: `((lon + 180) / 360) * 2^zoom`. -/
noncomputable def ll2tileX (lon : ℝ) (z : ℕ) : ℝ := (lon + 180) / 360 * (2:ℝ)^z

/-- `ll2tile` y coordinate:
`((1 - log(tan(lat·π/180) + 1/cos(lat·π/180)) / π) / 2) * 2^zoom`
(`Math.PI` is the real π in this idealised real-number model). -/
noncomputable def ll2tileY (lat : ℝ) (z : ℕ) : ℝ :=
  ((1 - Real.log (Real.tan (lat * Real.pi / 180)
      + 1 / Real.cos (lat * Real.pi / 180)) / Real.pi) / 2) * (2:ℝ)^z

/-- `rad2deg` from `utils.ts`: multiplication by the source's decimal literal
`57.29577951308232` (the double nearest `180/π`), kept exact here. -/
def rad2degR (x : ℝ) : ℝ := x * 57.29577951308232

/-- `tile2ll` longitude: `(x / 2^zoom) * 360 - 180`. -/
noncomputable def tile2llLon (x : ℝ) (z : ℕ) : ℝ := x / (2:ℝ)^z * 360 - 180

/-- `tile2ll` latitude: with `n = π - 2π·y/2^zoom`,
`rad2deg(atan(0.5 * (e^n - e^-n)))`. -/
noncomputable def tile2llLat (y : ℝ) (z : ℕ) : ℝ :=
  rad2degR (Real.arctan (0.5 *
    (Real.exp (Real.pi - 2 * Real.pi * y / (2:ℝ)^z)
      - Real.exp (-(Real.pi - 2 * Real.pi * y / (2:ℝ)^z)))))

-- ═════════════════════════════════════════════════════════════════════
-- THEOREMS
-- ═════════════════════════════════════════════════════════════════════

theorem clamp_le {num lo hi : ℚ} (h : lo ≤ hi) : clamp num lo hi ≤ hi := by
  unfold clamp
  split
  · exact h
  · split
    · exact le_rfl
    · next h1 h2 => exact le_of_not_le h2

theorem le_clamp {num lo hi : ℚ} (h : lo ≤ hi) : lo ≤ clamp num lo hi := by
  unfold clamp
  split
  · exact le_rfl
  · split
    · exact h
    · next h1 _ => exact le_of_not_le h1

-- ── Colour round-trip lemmas (claim C9) ──────────────────────────────

theorem hexVal_le {c : Char} {h : ℕ} (hv : hexVal c = some h) : h ≤ 15 := by
  unfold hexVal at hv
  split_ifs at hv <;> simp_all <;> omega

theorem parseHex_pair_le {c : Char} {v : ℕ}
    (hv : parseHex [c, c] = some v) : v ≤ 255 := by
  cases h : hexVal c with
  | none => simp [parseHex, h] at hv
  | some d =>
    have hd := hexVal_le h
    simp [parseHex, h] at hv
    omega

theorem hex2rgb_le {s : List Char} {r g b : ℕ}
    (h : hex2rgb s = some (r, g, b)) : r ≤ 255 ∧ g ≤ 255 ∧ b ≤ 255 := by
  simp only [hex2rgb] at h
  split_ifs at h
  all_goals first
  | (split at h
     · next ha ha2 ha3 =>
       simp only [Option.some.injEq, Prod.mk.injEq] at h
       obtain ⟨h1, h2, h3⟩ := h
       subst h1; subst h2; subst h3
       exact ⟨parseHex_pair_le ha, parseHex_pair_le ha2, parseHex_pair_le ha3⟩
     · exact absurd h (by simp))
  | (simp only [Option.map_eq_some', Prod.mk.injEq] at h
     obtain ⟨d, hd, h1, h2, h3⟩ := h
     subst h1; subst h2; subst h3
     exact ⟨Nat.and_le_right, Nat.and_le_right, Nat.and_le_right⟩)

/-- Bridge: the cube-channel rounding `Math.round(c/255*5)` as integer division. -/
theorem jsRound_cube (c : ℕ) : jsRound ((c:ℚ)/255*5) = (10*(c:ℤ) + 255) / 510 := by
  have h : ((c:ℚ)/255*5 + 1/2) = ((10*(c:ℤ) + 255 : ℤ) : ℚ) / ((510:ℕ) : ℚ) := by
    push_cast; ring
  rw [jsRound, h, Rat.floor_intCast_div_natCast]; norm_num

/-- Bridge: the greyscale rounding `Math.round((c-8)/247*23)` as integer division. -/
theorem jsRound_grey (c : ℕ) : jsRound (((c:ℚ) - 8)/247*23) = (46*(c:ℤ) - 121) / 494 := by
  have h : (((c:ℚ) - 8)/247*23 + 1/2) = ((46*(c:ℤ) - 121 : ℤ) : ℚ) / ((494:ℕ) : ℚ) := by
    push_cast; ring
  rw [jsRound, h, Rat.floor_intCast_div_natCast]; norm_num

set_option maxRecDepth 4000 in
theorem cube_channel_err : ∀ c : ℕ, c < 256 →
    (((cubeChannel ((10*(c:ℤ) + 255) / 510).toNat) : ℤ) - (c:ℤ)).natAbs ≤ 69 := by decide

set_option maxRecDepth 4000 in
theorem cube_index_range : ∀ c : ℕ, c < 256 →
    0 ≤ (10*(c:ℤ) + 255) / 510 ∧ (10*(c:ℤ) + 255) / 510 ≤ 5 := by decide

/-- `rgb2xterm` on a grey triple, with the rounding bridged to integer division. -/
theorem rgb2xterm_grey_form (r : ℕ) :
    rgb2xterm r r r = (if r < 8 then 16 else if r > 248 then 231
      else (46*(r:ℤ) - 121) / 494 + 232) := by
  unfold rgb2xterm
  rw [if_pos ⟨rfl, rfl⟩]
  split_ifs <;> simp [jsRound_grey]

set_option maxRecDepth 4000 in
theorem grey_path_err : ∀ c : ℕ, c < 256 →
    (((xterm2rgb (if c < 8 then 16 else if c > 248 then 231
        else (46*(c:ℤ) - 121) / 494 + 232)).1 : ℤ) - (c:ℤ)).natAbs ≤ 20 ∧
    (xterm2rgb (if c < 8 then 16 else if c > 248 then 231
        else (46*(c:ℤ) - 121) / 494 + 232)).2.1 =
      (xterm2rgb (if c < 8 then 16 else if c > 248 then 231
        else (46*(c:ℤ) - 121) / 494 + 232)).1 ∧
    (xterm2rgb (if c < 8 then 16 else if c > 248 then 231
        else (46*(c:ℤ) - 121) / 494 + 232)).2.2 =
      (xterm2rgb (if c < 8 then 16 else if c > 248 then 231
        else (46*(c:ℤ) - 121) / 494 + 232)).1 := by decide

/-- C9 (amended): for every hex colour string that parses to an RGB triple,
the hex→terminal-256→hex round trip (`xterm2hex (hex2xterm c)`, whose numeric
content is `xterm2rgb (rgb2xterm r g b)`) has a per-channel quantization error
of at most 69 (within the largest 6×6×6-cube gap of 95, but NOT within the
uniform 40 cube step), and at most 20 — two ramp steps, not one — on the
greyscale path taken when `r = g = b`. -/
theorem C9_bounded_quantization (s : List Char) (r g b : ℕ)
    (hs : hex2rgb s = some (r, g, b)) :
    (((xterm2rgb (rgb2xterm r g b)).1 : ℤ) - (r:ℤ)).natAbs ≤ 69 ∧
    (((xterm2rgb (rgb2xterm r g b)).2.1 : ℤ) - (g:ℤ)).natAbs ≤ 69 ∧
    (((xterm2rgb (rgb2xterm r g b)).2.2 : ℤ) - (b:ℤ)).natAbs ≤ 69 ∧
    (r = g → g = b → (((xterm2rgb (rgb2xterm r g b)).1 : ℤ) - (r:ℤ)).natAbs ≤ 20) := by
  obtain ⟨hr, hg, hb⟩ := hex2rgb_le hs
  by_cases hgrey : r = g ∧ g = b
  · obtain ⟨h1, h2⟩ := hgrey
    subst h1
    subst h2
    rw [rgb2xterm_grey_form]
    obtain ⟨e1, e2, e3⟩ := grey_path_err r (by omega)
    refine ⟨?_, ?_, ?_, fun _ _ => e1⟩
    · exact le_trans e1 (by norm_num)
    · rw [e2]; exact le_trans e1 (by norm_num)
    · rw [e3]; exact le_trans e1 (by norm_num)
  · have hne : ¬(r = g ∧ g = b) := hgrey
    have hform : rgb2xterm r g b =
        16 + 36 * ((10*(r:ℤ) + 255) / 510) + 6 * ((10*(g:ℤ) + 255) / 510)
          + ((10*(b:ℤ) + 255) / 510) := by
      unfold rgb2xterm
      rw [if_neg hne]
      simp [jsRound_cube]
    obtain ⟨ha0, ha5⟩ := cube_index_range r (by omega)
    obtain ⟨hb0, hb5⟩ := cube_index_range g (by omega)
    obtain ⟨hc0, hc5⟩ := cube_index_range b (by omega)
    set a := (10*(r:ℤ) + 255) / 510 with hadef
    set a2 := (10*(g:ℤ) + 255) / 510 with ha2def
    set a3 := (10*(b:ℤ) + 255) / 510 with ha3def
    have hx : xterm2rgb (rgb2xterm r g b) =
        (cubeChannel a.toNat, cubeChannel a2.toNat, cubeChannel a3.toNat) := by
      rw [hform]
      unfold xterm2rgb
      rw [if_neg (by omega), if_neg (by omega), if_pos (by omega)]
      have h36 : (16 + 36 * a + 6 * a2 + a3).toNat - 16
          = 36 * a.toNat + 6 * a2.toNat + a3.toNat := by omega
      rw [h36]
      dsimp only
      have e1 : (36 * a.toNat + 6 * a2.toNat + a3.toNat) / 36 = a.toNat := by omega
      have e2 : ((36 * a.toNat + 6 * a2.toNat + a3.toNat) % 36) / 6 = a2.toNat := by omega
      have e3 : (36 * a.toNat + 6 * a2.toNat + a3.toNat) % 6 = a3.toNat := by omega
      rw [e1, e2, e3]
    rw [hx]
    exact ⟨cube_channel_err r (by omega), cube_channel_err g (by omega),
      cube_channel_err b (by omega), fun p q => absurd ⟨p, q⟩ hne⟩

/-- C9 witness: the bounded-quantization theorem applied at the concrete hex
string `#1a2b3c` (r=26, g=43, b=60). -/
theorem C9_bounded_quantization_witness :
    hex2rgb ['#','1','a','2','b','3','c'] = some (26, 43, 60) ∧
    ((((xterm2rgb (rgb2xterm 26 43 60)).1 : ℤ) - (26:ℤ)).natAbs ≤ 69 ∧
     (((xterm2rgb (rgb2xterm 26 43 60)).2.1 : ℤ) - (43:ℤ)).natAbs ≤ 69 ∧
     (((xterm2rgb (rgb2xterm 26 43 60)).2.2 : ℤ) - (60:ℤ)).natAbs ≤ 69 ∧
     (26 = 43 → 43 = 60 →
       (((xterm2rgb (rgb2xterm 26 43 60)).1 : ℤ) - (26:ℤ)).natAbs ≤ 20)) :=
  ⟨by decide, C9_bounded_quantization ['#','1','a','2','b','3','c'] 26 43 60 (by decide)⟩

/-- C9 counterexample: the grey hex colour `#f8f8f8` (all channels 248) maps
to xterm index 254, which maps back to `#e4e4e4` (all channels 228).  The
channel error is 20, which exceeds one step (10) of the 24-entry greyscale
ramp, refuting the claim's "one step of the greyscale ramp for greys". -/
theorem C9_counterexample :
    hex2xterm ['#','f','8','f','8','f','8'] = some 254 ∧
    xterm2rgb 254 = (228, 228, 228) ∧
    xterm2hex 254 = ['#','e','4','e','4','e','4'] ∧
    ¬ (((228:ℤ) - 248).natAbs ≤ 10) := by
  have h1 : hex2rgb ['#','f','8','f','8','f','8'] = some (248, 248, 248) := by decide
  have h2 : rgb2xterm 248 248 248 = 254 := by
    rw [rgb2xterm_grey_form]
    norm_num
  refine ⟨?_, by decide, by decide, by decide⟩
  unfold hex2xterm
  rw [h1]
  simp [h2]


theorem brailleMask_pow (x y : ℤ) :
    ∃ m, m < 8 ∧ brailleMask x y = 2^m := by
  have key : ∀ a, a < 4 → ∀ c, c < 2 → ∃ m, m < 8 ∧ (brailleMap.getD a []).getD c 0 = 2^m := by
    decide
  unfold brailleMask
  exact key (y % 4).toNat (by omega) (x % 2).toNat (by omega)

theorem cellIndex_lt (b : BrailleBuffer) (x y : ℤ) (hwf : BufferWF b)
    (hin : ¬ b.oob x y) : b.cellIndex x y < b.charWidth * b.charHeight := by
  obtain ⟨hw, hh, _⟩ := hwf
  unfold BrailleBuffer.oob at hin
  push_neg at hin
  obtain ⟨h1, h2, h3, h4⟩ := hin
  unfold BrailleBuffer.cellIndex
  have hxw : (x / 2).toNat < b.charWidth := by omega
  have hyh : (y / 4).toNat < b.charHeight := by omega
  have h5 : b.charWidth * ((y / 4).toNat + 1) ≤ b.charWidth * b.charHeight :=
    Nat.mul_le_mul_left _ (by omega)
  refine lt_of_lt_of_le ?_ h5
  rw [Nat.mul_add, Nat.mul_one]
  omega

/-- C10: `unsetPixel` on an in-range pixel clears only the addressed dot bit of
the containing cell — foreground, background, override glyph, the global
background, the dimensions and every other cell are unchanged — and on an
out-of-range pixel it leaves the buffer entirely unchanged. -/
theorem C10_unsetPixel_frame (b : BrailleBuffer) (x y : ℤ) (hwf : BufferWF b) :
    (¬ b.oob x y →
      ((b.unsetPixel x y).fg = b.fg ∧
       (b.unsetPixel x y).bg = b.bg ∧
       (b.unsetPixel x y).ch = b.ch ∧
       (b.unsetPixel x y).globalBackground = b.globalBackground ∧
       (b.unsetPixel x y).width = b.width ∧
       (b.unsetPixel x y).height = b.height ∧
       (∀ j, j ≠ b.cellIndex x y → (b.unsetPixel x y).pixel[j]? = b.pixel[j]?) ∧
       (∀ t, ((b.unsetPixel x y).pixel.getD (b.cellIndex x y) 0).testBit t
          ↔ ((b.pixel.getD (b.cellIndex x y) 0).testBit t ∧ 2^t ≠ brailleMask x y)))) ∧
    (b.oob x y → b.unsetPixel x y = b) := by
  constructor
  · intro hin
    have hlen : b.pixel.length = b.charWidth * b.charHeight := hwf.2.2.1
    have hidx : b.cellIndex x y < b.pixel.length := hlen ▸ cellIndex_lt b x y hwf hin
    obtain ⟨m, hm8, hmask⟩ := brailleMask_pow x y
    have hp : b.pixel.getD (b.cellIndex x y) 0 < 256 := by
      have : b.pixel.getD (b.cellIndex x y) 0 ∈ b.pixel := by
        rw [List.getD_eq_getElem?_getD, List.getElem?_eq_getElem hidx]
        exact List.getElem_mem _
      exact hwf.2.2.2.2.2.2.1 _ this
    unfold BrailleBuffer.unsetPixel
    rw [if_neg hin]
    refine ⟨rfl, rfl, rfl, rfl, rfl, rfl, ?_, ?_⟩
    · intro j hj
      exact List.getElem?_set_ne (Ne.symm hj)
    · intro t
      have hset : (b.pixel.set (b.cellIndex x y)
          (b.pixel.getD (b.cellIndex x y) 0 &&& (255 ^^^ brailleMask x y))).getD
            (b.cellIndex x y) 0
          = b.pixel.getD (b.cellIndex x y) 0 &&& (255 ^^^ brailleMask x y) := by
        rw [List.getD_eq_getElem?_getD, List.getElem?_set_eq_of_lt _ hidx]
        rfl
      dsimp only
      rw [hset, hmask]
      set p := b.pixel.getD (b.cellIndex x y) 0 with hpdef
      rw [Nat.testBit_and, Nat.testBit_xor]
      have h255 : (255 : ℕ).testBit t = decide (t < 8) := by
        have : (255 : ℕ) = 2^8 - 1 := by norm_num
        rw [this, Nat.testBit_two_pow_sub_one]
      rw [h255, Nat.testBit_two_pow]
      constructor
      · intro h
        simp only [Bool.and_eq_true, bne_iff_ne, ne_eq, decide_eq_true_eq] at h
        obtain ⟨hpt, hne⟩ := h
        refine ⟨hpt, ?_⟩
        intro habs
        have : t = m := Nat.pow_right_injective (by norm_num) habs
        subst this
        by_cases ht8 : t < 8
        · simp [ht8] at hne
        · omega
      · intro ⟨hpt, hne⟩
        have ht8 : t < 8 := by
          by_contra h8
          have : p < 2^t := lt_of_lt_of_le hp (by
            calc (256:ℕ) = 2^8 := by norm_num
            _ ≤ 2^t := Nat.pow_le_pow_right (by norm_num) (by omega))
          rw [Nat.testBit_lt_two_pow this] at hpt
          exact absurd hpt (by simp)
        have htm : ¬ (m = t) := fun h => hne (h ▸ rfl)
        simp [hpt, ht8, htm]
  · intro h
    unfold BrailleBuffer.unsetPixel
    rw [if_pos h]


/-- C10 witness: the frame theorem applied to a concrete 4x8 buffer holding
one set pixel, at the in-range coordinate (1, 2). -/
theorem C10_unsetPixel_frame_witness :
    BufferWF ((mkBuffer 4 8).setPixel 1 2 3) ∧
    ((¬ ((mkBuffer 4 8).setPixel 1 2 3).oob 1 2 →
      ((((mkBuffer 4 8).setPixel 1 2 3).unsetPixel 1 2).fg = ((mkBuffer 4 8).setPixel 1 2 3).fg ∧
       (((mkBuffer 4 8).setPixel 1 2 3).unsetPixel 1 2).bg = ((mkBuffer 4 8).setPixel 1 2 3).bg ∧
       (((mkBuffer 4 8).setPixel 1 2 3).unsetPixel 1 2).ch = ((mkBuffer 4 8).setPixel 1 2 3).ch ∧
       (((mkBuffer 4 8).setPixel 1 2 3).unsetPixel 1 2).globalBackground
         = ((mkBuffer 4 8).setPixel 1 2 3).globalBackground ∧
       (((mkBuffer 4 8).setPixel 1 2 3).unsetPixel 1 2).width = ((mkBuffer 4 8).setPixel 1 2 3).width ∧
       (((mkBuffer 4 8).setPixel 1 2 3).unsetPixel 1 2).height = ((mkBuffer 4 8).setPixel 1 2 3).height ∧
       (∀ j, j ≠ ((mkBuffer 4 8).setPixel 1 2 3).cellIndex 1 2 →
          (((mkBuffer 4 8).setPixel 1 2 3).unsetPixel 1 2).pixel[j]?
            = ((mkBuffer 4 8).setPixel 1 2 3).pixel[j]?) ∧
       (∀ t, ((((mkBuffer 4 8).setPixel 1 2 3).unsetPixel 1 2).pixel.getD
              (((mkBuffer 4 8).setPixel 1 2 3).cellIndex 1 2) 0).testBit t
          ↔ ((((mkBuffer 4 8).setPixel 1 2 3).pixel.getD
              (((mkBuffer 4 8).setPixel 1 2 3).cellIndex 1 2) 0).testBit t ∧
             2^t ≠ brailleMask 1 2)))) ∧
     (((mkBuffer 4 8).setPixel 1 2 3).oob 1 2 →
       ((mkBuffer 4 8).setPixel 1 2 3).unsetPixel 1 2 = (mkBuffer 4 8).setPixel 1 2 3)) :=
  ⟨by decide, C10_unsetPixel_frame ((mkBuffer 4 8).setPixel 1 2 3) 1 2 (by decide)⟩

theorem charOfNat_toNat {n : ℕ} (h : n < 0xD800) : (Char.ofNat n).toNat = n := by
  have hv : n.isValidChar := Or.inl h
  unfold Char.ofNat
  rw [dif_pos hv]
  unfold Char.ofNatAux Char.toNat
  simp [UInt32.toNat, BitVec.toNat_ofNatLt]

theorem natChars_digit : ∀ n : ℕ, ∀ c ∈ natChars n, 48 ≤ c.toNat ∧ c.toNat ≤ 57 := by
  intro n
  induction n using Nat.strong_induction_on with
  | _ n ih =>
    intro c hc
    rw [natChars] at hc
    split at hc
    · next h =>
      simp only [List.mem_singleton] at hc
      subst hc
      rw [charOfNat_toNat (by omega)]
      omega
    · next h =>
      rcases List.mem_append.mp hc with h1 | h2
      · exact ih (n / 10) (Nat.div_lt_self (by omega) (by omega)) _ h1
      · simp only [List.mem_singleton] at h2
        subst h2
        rw [charOfNat_toNat (by omega)]
        have := Nat.mod_lt n (y := 10) (by omega)
        omega

theorem m_not_mem_natChars (n : ℕ) : 'm' ∉ natChars n := by
  intro h
  have := natChars_digit n 'm' h
  revert this
  decide

theorem esc_not_mem_natChars (n : ℕ) : escChar ∉ natChars n := by
  intro h
  have := natChars_digit n escChar h
  revert this
  decide

theorem termColor_body_case (f e : ℕ) :
    ∃ body, (if f ≠ 0 ∧ e ≠ 0 then
      escChar :: '[' :: ('3' :: '8' :: ';' :: '5' :: ';' :: natChars f)
        ++ (';' :: '4' :: '8' :: ';' :: '5' :: ';' :: natChars e) ++ ['m']
    else if f ≠ 0 then
      escChar :: '[' :: ('4' :: '9' :: ';' :: '3' :: '8' :: ';' :: '5' :: ';' :: natChars f) ++ ['m']
    else if e ≠ 0 then
      escChar :: '[' :: ('3' :: '9' :: ';' :: '4' :: '8' :: ';' :: '5' :: ';' :: natChars e) ++ ['m']
    else escChar :: '[' :: ('3' :: '9' :: ';' :: '4' :: '9' :: []) ++ ['m'])
      = escChar :: body ++ ['m'] ∧ 'm' ∉ body := by
  split_ifs with h1 h2 h3
  · refine ⟨['[','3','8',';','5',';'] ++ natChars f
      ++ ([';','4','8',';','5',';'] ++ natChars e), by simp, ?_⟩
    simp only [List.mem_append]
    push_neg
    exact ⟨⟨by decide, m_not_mem_natChars f⟩, by decide, m_not_mem_natChars e⟩
  · refine ⟨['[','4','9',';','3','8',';','5',';'] ++ natChars f, by simp, ?_⟩
    simp only [List.mem_append]
    push_neg
    exact ⟨by decide, m_not_mem_natChars f⟩
  · refine ⟨['[','3','9',';','4','8',';','5',';'] ++ natChars e, by simp, ?_⟩
    simp only [List.mem_append]
    push_neg
    exact ⟨by decide, m_not_mem_natChars e⟩
  · exact ⟨['[','3','9',';','4','9'], by simp, by decide⟩

theorem termColor_shape (f g gb : ℕ) :
    ∃ body, termColor f g gb = escChar :: body ++ ['m'] ∧ 'm' ∉ body := by
  unfold termColor
  exact termColor_body_case f (if g ≠ 0 then g else gb)

theorem stripAnsiGo_append_escfree {xs : List Char} (h : escChar ∉ xs) (ys : List Char) :
    stripAnsiGo false (xs ++ ys) = xs ++ stripAnsiGo false ys := by
  induction xs with
  | nil => rfl
  | cons c rest ih =>
    have hc : c ≠ escChar := fun hc => h (hc ▸ List.mem_cons_self c rest)
    have hrest : escChar ∉ rest := fun hr => h (List.mem_cons_of_mem c hr)
    simp [stripAnsiGo, if_neg hc, ih hrest]

theorem stripAnsiGo_true_dropM {body : List Char} (h : 'm' ∉ body) (ys : List Char) :
    stripAnsiGo true (body ++ 'm' :: ys) = stripAnsiGo false ys := by
  induction body with
  | nil => simp [stripAnsiGo]
  | cons c rest ih =>
    have hc : c ≠ 'm' := fun hc => h (hc ▸ List.mem_cons_self c rest)
    have hrest : 'm' ∉ rest := fun hr => h (List.mem_cons_of_mem c hr)
    simp [stripAnsiGo, if_neg hc, ih hrest]

theorem stripAnsiGo_esc_prefix {body : List Char} (h : 'm' ∉ body) (ys : List Char) :
    stripAnsiGo false ((escChar :: body ++ ['m']) ++ ys) = stripAnsiGo false ys := by
  have hassoc : (escChar :: body ++ ['m']) ++ ys = escChar :: (body ++ 'm' :: ys) := by simp
  rw [hassoc]
  simp only [stripAnsiGo]
  rw [if_neg (by decide : ¬(false = true)), if_pos trivial]
  exact stripAnsiGo_true_dropM h ys

theorem strip_termColor (f g gb : ℕ) (ys : List Char) :
    stripAnsiGo false (termColor f g gb ++ ys) = stripAnsiGo false ys := by
  obtain ⟨body, hb, hm⟩ := termColor_shape f g gb
  rw [hb]
  exact stripAnsiGo_esc_prefix hm ys

theorem strip_termReset (ys : List Char) :
    stripAnsiGo false (termReset ++ ys) = stripAnsiGo false ys := by
  have : termReset = escChar :: ('[' :: '3' :: '9' :: ';' :: '4' :: '9' :: []) ++ ['m'] := rfl
  rw [this]
  exact stripAnsiGo_esc_prefix (by decide) ys

theorem brailleChar_ne_esc {bits : ℕ} (h : bits < 256) : brailleChar bits ≠ escChar := by
  intro habs
  have h1 : (brailleChar bits).toNat = 0x2800 + bits := charOfNat_toNat (by omega)
  have h2 : escChar.toNat = 27 := by decide
  rw [habs, h2] at h1
  omega



theorem strip_cons_ne {c : Char} (h : c ≠ escChar) (l : List Char) :
    stripAnsiGo false (c :: l) = c :: stripAnsiGo false l := by
  simp [stripAnsiGo, if_neg h]

theorem strip_emit {f g gb : ℕ} {cond : Prop} [Decidable cond] (X : List Char) :
    stripAnsiGo false ((if cond then termColor f g gb else []) ++ X)
      = stripAnsiGo false X := by
  split_ifs with h
  · exact strip_termColor f g gb X
  · rfl

theorem getD_pixel_lt {b : BrailleBuffer} (hpix : ∀ v ∈ b.pixel, v < 256) (idx : ℕ) :
    b.pixel.getD idx 0 < 256 := by
  by_cases h : idx < b.pixel.length
  · refine hpix _ ?_
    rw [List.getD_eq_getElem?_getD, List.getElem?_eq_getElem h]
    exact List.getElem_mem _
  · rw [List.getD_eq_getElem?_getD, List.getElem?_eq_none (by omega)]
    simp

theorem getD_ch_escfree {b : BrailleBuffer}
    (hch : ∀ o ∈ b.ch, ∀ g, o = some g → escChar ∉ g) {idx : ℕ} {g : List Char}
    (h : b.ch.getD idx none = some g) : escChar ∉ g := by
  by_cases hlt : idx < b.ch.length
  · refine hch (b.ch.getD idx none) ?_ g h
    rw [List.getD_eq_getElem?_getD, List.getElem?_eq_getElem hlt]
    exact List.getElem_mem _
  · rw [List.getD_eq_getElem?_getD, List.getElem?_eq_none (by omega)] at h
    exact absurd h (by simp)

theorem strip_ansiRowGo (b : BrailleBuffer) (hpix : ∀ v ∈ b.pixel, v < 256)
    (hch : ∀ o ∈ b.ch, ∀ g, o = some g → escChar ∉ g) (cy : ℕ) :
    ∀ (idxs : List ℕ) (skip : ℕ) (cur : Option (List Char)) (tl : List Char),
      stripAnsiGo false ((ansiRowGo b cy idxs skip cur).1 ++ tl)
        = plainRowGo b cy idxs skip ++ stripAnsiGo false tl := by
  intro idxs
  induction idxs with
  | nil =>
    intro skip cur tl
    simp [ansiRowGo, plainRowGo]
  | cons cx rest ih =>
    intro skip cur tl
    cases hcho : b.ch.getD (cy * b.charWidth + cx) none with
    | some g =>
      by_cases hskip : skip > 0
      · rcases hrec : ansiRowGo b cy rest (skip - 1)
          (some (termColor (b.fg.getD (cy * b.charWidth + cx) 0)
            (b.bg.getD (cy * b.charWidth + cx) 0) b.globalBackground)) with ⟨t, c⟩
        simp only [ansiRowGo, plainRowGo, hcho, if_pos hskip, hrec]
        rw [List.append_assoc]
        rw [strip_emit]
        have := ih (skip - 1)
          (some (termColor (b.fg.getD (cy * b.charWidth + cx) 0)
            (b.bg.getD (cy * b.charWidth + cx) 0) b.globalBackground)) tl
        rw [hrec] at this
        exact this
      · rcases hrec : ansiRowGo b cy rest
          (skip + (if g.length > 1 then g.length - 1 else 0))
          (some (termColor (b.fg.getD (cy * b.charWidth + cx) 0)
            (b.bg.getD (cy * b.charWidth + cx) 0) b.globalBackground)) with ⟨t, c⟩
        simp only [ansiRowGo, plainRowGo, hcho, if_neg hskip, hrec]
        rw [List.append_assoc, List.append_assoc]
        rw [strip_emit]
        rw [stripAnsiGo_append_escfree (getD_ch_escfree hch hcho)]
        have := ih (skip + (if g.length > 1 then g.length - 1 else 0))
          (some (termColor (b.fg.getD (cy * b.charWidth + cx) 0)
            (b.bg.getD (cy * b.charWidth + cx) 0) b.globalBackground)) tl
        rw [hrec] at this
        rw [this, List.append_assoc]
    | none =>
      by_cases hskip : skip > 0
      · rcases hrec : ansiRowGo b cy rest (skip - 1)
          (some (termColor (b.fg.getD (cy * b.charWidth + cx) 0)
            (b.bg.getD (cy * b.charWidth + cx) 0) b.globalBackground)) with ⟨t, c⟩
        simp only [ansiRowGo, plainRowGo, hcho, if_pos hskip, hrec]
        rw [List.append_assoc]
        rw [strip_emit]
        have := ih (skip - 1)
          (some (termColor (b.fg.getD (cy * b.charWidth + cx) 0)
            (b.bg.getD (cy * b.charWidth + cx) 0) b.globalBackground)) tl
        rw [hrec] at this
        exact this
      · rcases hrec : ansiRowGo b cy rest skip
          (some (termColor (b.fg.getD (cy * b.charWidth + cx) 0)
            (b.bg.getD (cy * b.charWidth + cx) 0) b.globalBackground)) with ⟨t, c⟩
        simp only [ansiRowGo, plainRowGo, hcho, if_neg hskip, hrec]
        rw [List.append_assoc]
        rw [strip_emit]
        rw [List.cons_append]
        rw [strip_cons_ne (brailleChar_ne_esc (getD_pixel_lt hpix _))]
        have := ih skip
          (some (termColor (b.fg.getD (cy * b.charWidth + cx) 0)
            (b.bg.getD (cy * b.charWidth + cx) 0) b.globalBackground)) tl
        rw [hrec] at this
        rw [this]
        simp

theorem colored_join_rowGo (b : BrailleBuffer) (cy : ℕ) :
    ∀ (idxs : List ℕ) (skip : ℕ),
      ((coloredRowGo b cy idxs skip).map ColoredCell.char).flatten
        = plainRowGo b cy idxs skip := by
  intro idxs
  induction idxs with
  | nil => intro skip; simp [coloredRowGo, plainRowGo]
  | cons cx rest ih =>
    intro skip
    cases hcho : b.ch.getD (cy * b.charWidth + cx) none with
    | some g =>
      by_cases hskip : skip > 0
      · simp only [coloredRowGo, plainRowGo, hcho, if_pos hskip]
        exact ih (skip - 1)
      · simp only [coloredRowGo, plainRowGo, hcho, if_neg hskip, List.map_cons,
          List.flatten_cons]
        rw [ih]
    | none =>
      by_cases hskip : skip > 0
      · simp only [coloredRowGo, plainRowGo, hcho, if_pos hskip]
        exact ih (skip - 1)
      · simp only [coloredRowGo, plainRowGo, hcho, if_neg hskip, List.map_cons,
          List.flatten_cons]
        rw [ih]
        simp



theorem toLinesGo_strip (b : BrailleBuffer) (hpix : ∀ v ∈ b.pixel, v < 256)
    (hch : ∀ o ∈ b.ch, ∀ g, o = some g → escChar ∉ g) :
    ∀ (rows : List ℕ) (cur : Option (List Char)),
      (toLinesGo b rows cur).map stripAnsi
        = rows.map (fun cy => plainRowGo b cy (List.range b.charWidth) 0) := by
  intro rows
  induction rows with
  | nil => intro cur; rfl
  | cons cy rest ih =>
    intro cur
    rcases hrec : ansiRowGo b cy (List.range b.charWidth) 0 cur with ⟨t, c⟩
    simp only [toLinesGo, hrec, List.map_cons]
    refine List.cons_eq_cons.mpr ⟨?_, ?_⟩
    · have := strip_ansiRowGo b hpix hch cy (List.range b.charWidth) 0 cur termReset
      rw [hrec] at this
      have hreset : stripAnsiGo false termReset = [] := by decide
      rw [stripAnsi, this, hreset, List.append_nil]
    · exact ih c

theorem forall_mem_set {α : Type} {l : List α} {P : α → Prop} (hl : ∀ v ∈ l, P v)
    {i : ℕ} {x : α} (hx : P x) : ∀ v ∈ l.set i x, P v := by
  intro v hv
  rcases List.mem_or_eq_of_mem_set hv with h | h
  · exact hl v h
  · exact h ▸ hx

theorem brailleMask_lt (x y : ℤ) : brailleMask x y < 256 := by
  obtain ⟨m, hm, he⟩ := brailleMask_pow x y
  rw [he]
  calc (2:ℕ)^m ≤ 2^7 := Nat.pow_le_pow_right (by norm_num) (by omega)
  _ < 256 := by norm_num

theorem wf_setPixel {b : BrailleBuffer} (hwf : BufferWF b) (x y : ℤ) (c : ℕ) :
    BufferWF (b.setPixel x y c) := by
  unfold BrailleBuffer.setPixel
  split_ifs with h
  · exact hwf
  · obtain ⟨h1, h2, h3, h4, h5, h6, h7, h8⟩ := hwf
    refine ⟨h1, h2, by simpa using h3, by simpa using h4, h5, h6, ?_, h8⟩
    refine forall_mem_set h7 ?_
    have hp : b.pixel.getD (b.cellIndex x y) 0 < 256 := getD_pixel_lt h7 _
    have hm : brailleMask x y < 256 := brailleMask_lt x y
    have : (256:ℕ) = 2^8 := by norm_num
    rw [this] at hp hm ⊢
    exact Nat.or_lt_two_pow hp hm

theorem wf_unsetPixel {b : BrailleBuffer} (hwf : BufferWF b) (x y : ℤ) :
    BufferWF (b.unsetPixel x y) := by
  unfold BrailleBuffer.unsetPixel
  split_ifs with h
  · exact hwf
  · obtain ⟨h1, h2, h3, h4, h5, h6, h7, h8⟩ := hwf
    refine ⟨h1, h2, by simpa using h3, h4, h5, h6, ?_, h8⟩
    refine forall_mem_set h7 ?_
    exact lt_of_le_of_lt (Nat.and_le_left) (getD_pixel_lt h7 _)

theorem wf_setBackground {b : BrailleBuffer} (hwf : BufferWF b) (x y : ℤ) (c : ℕ) :
    BufferWF (b.setBackground x y c) := by
  unfold BrailleBuffer.setBackground
  split_ifs with h
  · exact hwf
  · obtain ⟨h1, h2, h3, h4, h5, h6, h7, h8⟩ := hwf
    exact ⟨h1, h2, h3, h4, by simpa using h5, h6, h7, h8⟩

theorem wf_setChar {b : BrailleBuffer} (hwf : BufferWF b) {s : List Char}
    (hs : escChar ∉ s) (x y : ℤ) (c : ℕ) : BufferWF (b.setChar s x y c) := by
  unfold BrailleBuffer.setChar
  split_ifs with h
  · exact hwf
  · obtain ⟨h1, h2, h3, h4, h5, h6, h7, h8⟩ := hwf
    refine ⟨h1, h2, h3, by simpa using h4, h5, by simpa using h6, h7, ?_⟩
    refine forall_mem_set h8 ?_
    intro g hg
    cases hg
    exact hs

theorem wf_writeText {b : BrailleBuffer} (hwf : BufferWF b) {s : List Char}
    (hs : escChar ∉ s) (x y : ℤ) (c : ℕ) (center : Bool) :
    BufferWF (b.writeText s x y c center) := by
  unfold BrailleBuffer.writeText
  generalize (if center then x - ((s.length : ℤ) + 1) else x) = x0
  have key : ∀ (is : List ℕ) (b' : BrailleBuffer), BufferWF b' →
      BufferWF (is.foldl (fun acc i => acc.setChar [s.getD i ' '] (x0 + 2 * (i : ℤ)) y c) b') := by
    intro is
    induction is with
    | nil => intro b' hb'; exact hb'
    | cons i rest ih =>
      intro b' hb'
      refine ih _ (wf_setChar hb' ?_ _ _ _)
      intro habs
      simp only [List.mem_singleton] at habs
      by_cases hi : i < s.length
      · have : s.getD i ' ' ∈ s := by
          rw [List.getD_eq_getElem?_getD, List.getElem?_eq_getElem hi]
          exact List.getElem_mem _
        exact hs (habs ▸ this)
      · rw [List.getD_eq_getElem?_getD, List.getElem?_eq_none (by omega)] at habs
        exact absurd habs.symm (by decide)
  exact key _ b hwf

theorem wf_applyBufOp {b : BrailleBuffer} (hwf : BufferWF b) {op : BufOp}
    (hop : escFreeOp op) : BufferWF (applyBufOp b op) := by
  cases op with
  | setPixel x y c => exact wf_setPixel hwf x y c
  | unsetPixel x y => exact wf_unsetPixel hwf x y
  | setBackground x y c => exact wf_setBackground hwf x y c
  | setChar s x y c => exact wf_setChar hwf hop x y c
  | writeText s x y c center => exact wf_writeText hwf hop x y c center

theorem wf_mkBuffer (w h : ℕ) : BufferWF (mkBuffer w h) := by
  unfold mkBuffer BufferWF
  dsimp only
  refine ⟨by omega, by omega, by simp, by simp, by simp, by simp, ?_, ?_⟩
  · intro v hv
    rw [List.eq_of_mem_replicate hv]
    norm_num
  · intro o ho g hg
    rw [List.eq_of_mem_replicate ho] at hg
    exact absurd hg (by simp)

theorem wf_foldl {ops : List BufOp} (hops : ∀ op ∈ ops, escFreeOp op)
    {b : BrailleBuffer} (hb : BufferWF b) : BufferWF (ops.foldl applyBufOp b) := by
  induction ops generalizing b with
  | nil => exact hb
  | cons op rest ih =>
    exact ih (fun o ho => hops o (List.mem_cons_of_mem op ho))
      (wf_applyBufOp hb (hops op (List.mem_cons_self op rest)))



/-- C5: for every buffer state reachable from a fresh buffer by any sequence of
`setPixel` / `unsetPixel` / `setBackground` / `setChar` / `writeText` calls
whose glyph arguments are visible text (no raw ESC characters), the three
export modes agree: stripping the ANSI escape sequences from `toLines()`
yields exactly `toPlainLines()`, and concatenating the `char` fields of each
`toColoredCells()` row also yields `toPlainLines()` (multi-width override
glyphs advance the same shared skip counter in all three). -/
theorem C5_export_consistency (w h : ℕ) (ops : List BufOp)
    (hops : ∀ op ∈ ops, escFreeOp op) :
    ((ops.foldl applyBufOp (mkBuffer w h)).toLines).map stripAnsi
        = (ops.foldl applyBufOp (mkBuffer w h)).toPlainLines ∧
    ((ops.foldl applyBufOp (mkBuffer w h)).toColoredCells).map
        (fun row => (row.map ColoredCell.char).flatten)
        = (ops.foldl applyBufOp (mkBuffer w h)).toPlainLines := by
  have hwf := wf_foldl hops (wf_mkBuffer w h)
  obtain ⟨_, _, _, _, _, _, hpix, hch⟩ := hwf
  constructor
  · unfold BrailleBuffer.toLines BrailleBuffer.toPlainLines
    exact toLinesGo_strip _ hpix hch _ none
  · unfold BrailleBuffer.toColoredCells BrailleBuffer.toPlainLines
    rw [List.map_map]
    refine List.map_congr_left ?_
    intro cy _
    exact colored_join_rowGo _ cy _ 0

/-- C5 witness: the consistency theorem applied to a concrete 8×8 buffer after
a sequence covering all five mutators including a multi-codepoint glyph. -/
theorem C5_export_consistency_witness :
    (∀ op ∈ ([.setPixel 0 0 5, .setChar ['a','b'] 2 0 3, .unsetPixel 0 0,
        .setBackground 0 4 7, .writeText ['h','i'] 2 4 2 true] : List BufOp),
      escFreeOp op) ∧
    ((([.setPixel 0 0 5, .setChar ['a','b'] 2 0 3, .unsetPixel 0 0,
        .setBackground 0 4 7, .writeText ['h','i'] 2 4 2 true] : List BufOp).foldl
          applyBufOp (mkBuffer 8 8)).toLines).map stripAnsi
        = (([.setPixel 0 0 5, .setChar ['a','b'] 2 0 3, .unsetPixel 0 0,
            .setBackground 0 4 7, .writeText ['h','i'] 2 4 2 true] : List BufOp).foldl
              applyBufOp (mkBuffer 8 8)).toPlainLines ∧
    ((([.setPixel 0 0 5, .setChar ['a','b'] 2 0 3, .unsetPixel 0 0,
        .setBackground 0 4 7, .writeText ['h','i'] 2 4 2 true] : List BufOp).foldl
          applyBufOp (mkBuffer 8 8)).toColoredCells).map
        (fun row => (row.map ColoredCell.char).flatten)
        = (([.setPixel 0 0 5, .setChar ['a','b'] 2 0 3, .unsetPixel 0 0,
            .setBackground 0 4 7, .writeText ['h','i'] 2 4 2 true] : List BufOp).foldl
              applyBufOp (mkBuffer 8 8)).toPlainLines :=
  ⟨by decide, C5_export_consistency 8 8 _ (by decide)⟩

/-- C7: `Canvas.polygon` (i) rejects any ring set whose first (outer) ring has
fewer than 3 points, returning `false` with the pixel buffer untouched, and
(ii) catches a triangulation exception and returns `false` with the buffer
untouched instead of crashing — for every triangulator behaviour. -/
theorem C7_polygon_failure_paths
    (earcutFn : List ℤ → Option (List ℕ) → Except Unit (List ℕ))
    (w h : ℕ) (color : ℕ) (b : BrailleBuffer) :
    (∀ (r : List (ℤ × ℤ)) (rest : List (List (ℤ × ℤ))), r.length < 3 →
      canvasPolygon earcutFn w h (r :: rest) color b = (false, b)) ∧
    (∀ (rings : List (List (ℤ × ℤ))) (verts : List ℤ) (holes : List ℕ),
      polyVerts rings [] [] = some (verts, holes) →
      earcutFn verts (if holes.length ≠ 0 then some holes else none) = .error () →
      canvasPolygon earcutFn w h rings color b = (false, b)) := by
  constructor
  · intro r rest hr
    unfold canvasPolygon
    have : polyVerts (r :: rest) [] [] = none := by
      unfold polyVerts
      rw [if_neg (by simp), if_pos hr]
    rw [this]
  · intro rings verts holes hpv he
    unfold canvasPolygon
    rw [hpv]
    dsimp only
    rw [he]

/-- C7 witness: a degenerate outer ring of two points is rejected, and a
throwing triangulator on a proper square ring is caught, both leaving a
concrete buffer unchanged. -/
theorem C7_polygon_failure_paths_witness :
    ((2:ℕ) < 3 → True) ∧
    canvasPolygon (fun _ _ => .error ()) 8 8 [[(0,0),(1,1)]] 3 (mkBuffer 8 8)
      = (false, mkBuffer 8 8) ∧
    canvasPolygon (fun _ _ => .error ()) 8 8 [[(0,0),(4,0),(4,4),(0,4)]] 3 (mkBuffer 8 8)
      = (false, mkBuffer 8 8) := by
  refine ⟨fun _ => trivial, ?_, ?_⟩
  · exact (C7_polygon_failure_paths (fun _ _ => .error ()) 8 8 3 (mkBuffer 8 8)).1
      [(0,0),(1,1)] [] (by decide)
  · exact (C7_polygon_failure_paths (fun _ _ => .error ()) 8 8 3 (mkBuffer 8 8)).2
      [[(0,0),(4,0),(4,4),(0,4)]] [0,0,4,0,4,4,0,4] [] (by decide) rfl

theorem evictLoop_spec {τ : Type} (size : ℕ) :
    ∀ (order : List String) (cache : List (String × τ)),
      cache.map Prod.fst = order → order.Nodup →
      (evictLoop size cache order).1.map Prod.fst = (evictLoop size cache order).2 ∧
      (evictLoop size cache order).2 = order.drop (order.length - size) ∧
      (evictLoop size cache order).2.Nodup := by
  intro order
  induction order with
  | nil =>
    intro cache hmap hnd
    simp [evictLoop, hmap]
  | cons k rest ih =>
    intro cache hmap hnd
    by_cases h : size < (k :: rest).length
    · rw [evictLoop, if_pos h]
      obtain ⟨p, ctail, rfl⟩ : ∃ p ctail, cache = p :: ctail := by
        cases cache with
        | nil => simp at hmap
        | cons p t => exact ⟨p, t, rfl⟩
      have hp : p.1 = k := by
        simp only [List.map_cons, List.cons.injEq] at hmap
        exact hmap.1
      have htail : ctail.map Prod.fst = rest := by
        simp only [List.map_cons, List.cons.injEq] at hmap
        exact hmap.2
      have herase : (p :: ctail).eraseP (fun q => decide (q.1 = k)) = ctail := by
        rw [List.eraseP_cons_of_pos]
        simp [hp]
      rw [herase]
      obtain ⟨e1, e2, e3⟩ := ih ctail htail (List.Nodup.of_cons hnd)
      refine ⟨e1, ?_, e3⟩
      rw [e2]
      have : (k :: rest).length - size = (rest.length - size) + 1 := by
        simp only [List.length_cons] at h ⊢
        omega
      rw [this, List.drop_succ_cons]
    · rw [evictLoop, if_neg h]
      refine ⟨hmap, ?_, hnd⟩
      have : (k :: rest).length - size = 0 := by
        simp only [List.length_cons] at h ⊢
        omega
      rw [this, List.drop_zero]

theorem mapGet_none_not_mem {τ : Type} {m : List (String × τ)} {k : String}
    (h : mapGet m k = none) : k ∉ m.map Prod.fst := by
  unfold mapGet at h
  rw [Option.map_eq_none'] at h
  rw [List.find?_eq_none] at h
  intro hmem
  obtain ⟨p, hp, hpk⟩ := List.mem_map.mp hmem
  exact absurd (by simpa using hpk) (by simpa using h p hp)

theorem mapSet_append {τ : Type} {m : List (String × τ)} {k : String}
    (h : k ∉ m.map Prod.fst) (v : τ) : mapSet m k v = m ++ [(k, v)] := by
  unfold mapSet
  rw [if_neg]
  rw [Option.isSome_iff_exists]
  push_neg
  intro p hp
  have hpk := List.find?_some hp
  have hmem := List.mem_of_find?_eq_some hp
  exact h (List.mem_map.mpr ⟨p, hmem, by simpa using hpk⟩)

theorem cacheSet_spec {τ : Type} {s : TileCache τ} (hwf : CacheWF s) {key : String}
    (hkey : key ∉ s.order) (tile : τ) :
    CacheWF (cacheSet s key tile) ∧
    (cacheSet s key tile).order = (s.order ++ [key]).drop (s.order.length + 1 - s.size) ∧
    (cacheSet s key tile).order.length ≤ s.size ∧
    (cacheSet s key tile).size = s.size := by
  obtain ⟨hmap, hnd⟩ := hwf
  have hkm : key ∉ s.cache.map Prod.fst := hmap ▸ hkey
  have hset : mapSet s.cache key tile = s.cache ++ [(key, tile)] := mapSet_append hkm tile
  have hmap' : (mapSet s.cache key tile).map Prod.fst = s.order ++ [key] := by
    rw [hset, List.map_append, hmap]
    rfl
  have hnd' : (s.order ++ [key]).Nodup := by
    rw [List.nodup_append]
    exact ⟨hnd, List.nodup_singleton key, by simpa using hkey⟩
  obtain ⟨e1, e2, e3⟩ := evictLoop_spec s.size (s.order ++ [key]) _ hmap' hnd'
  have hlen : (s.order ++ [key]).length = s.order.length + 1 := by simp
  refine ⟨⟨e1, e3⟩, ?_, ?_, rfl⟩
  · show (evictLoop s.size (mapSet s.cache key tile) (s.order ++ [key])).2 = _
    rw [e2, hlen]
  · show (evictLoop s.size (mapSet s.cache key tile) (s.order ++ [key])).2.length ≤ s.size
    rw [e2, List.length_drop, hlen]
    omega

theorem runTile_inv {τ : Type} (gunzip : List ℕ → Except Unit (List ℕ))
    (decode : List ℕ → Except Unit τ) (fetch : ℕ → ℕ → ℕ → List ℕ)
    {s : TileCache τ} (h : CacheWF s ∧ s.order.length ≤ s.size ∧ s.size = s.size)
    (c : ℕ × ℕ × ℕ) :
    CacheWF (runTile gunzip decode fetch s c) ∧
    (runTile gunzip decode fetch s c).order.length ≤ (runTile gunzip decode fetch s c).size ∧
    (runTile gunzip decode fetch s c).size = s.size := by
  obtain ⟨hwf, hlen, -⟩ := h
  unfold runTile getTile
  cases hget : mapGet s.cache (tileKey c.1 c.2.1 c.2.2) with
  | some t => exact ⟨hwf, hlen, rfl⟩
  | none =>
    cases hp : parseTileE gunzip decode (fetch c.1 c.2.1 c.2.2) with
    | error e => exact ⟨hwf, hlen, rfl⟩
    | ok parsed =>
      have hkey : tileKey c.1 c.2.1 c.2.2 ∉ s.order :=
        hwf.1 ▸ mapGet_none_not_mem hget
      obtain ⟨hwf', _, hle, hsz⟩ := cacheSet_spec hwf hkey parsed
      exact ⟨hwf', hsz ▸ hle, hsz⟩

theorem runTiles_inv {τ : Type} (gunzip : List ℕ → Except Unit (List ℕ))
    (decode : List ℕ → Except Unit τ) (fetch : ℕ → ℕ → ℕ → List ℕ)
    (calls : List (ℕ × ℕ × ℕ)) (size : ℕ) :
    CacheWF (runTiles gunzip decode fetch calls (initCache τ size)) ∧
    (runTiles gunzip decode fetch calls (initCache τ size)).order.length
      ≤ (runTiles gunzip decode fetch calls (initCache τ size)).size ∧
    (runTiles gunzip decode fetch calls (initCache τ size)).size = size := by
  suffices key : ∀ (s : TileCache τ), CacheWF s → s.order.length ≤ s.size →
      CacheWF (runTiles gunzip decode fetch calls s) ∧
      (runTiles gunzip decode fetch calls s).order.length
        ≤ (runTiles gunzip decode fetch calls s).size ∧
      (runTiles gunzip decode fetch calls s).size = s.size by
    exact key (initCache τ size) ⟨rfl, List.nodup_nil⟩ (by simp [initCache])
  induction calls with
  | nil => intro s h1 h2; exact ⟨h1, h2, rfl⟩
  | cons c rest ih =>
    intro s h1 h2
    obtain ⟨g1, g2, g3⟩ := runTile_inv gunzip decode fetch ⟨h1, h2, rfl⟩ c
    obtain ⟨f1, f2, f3⟩ := ih (runTile gunzip decode fetch s c) g1 g2
    exact ⟨f1, f2, f3.trans g3⟩



/-- C6: after any sequence of `getTile` calls from a fresh cache of capacity
`size`, the cache holds at most `size` entries; a call whose key is cached
returns the stored tile directly with no decode (`false` flag) and no state
change; and an insertion on a full queue evicts from the front of the
insertion-order queue (the `drop` of the oldest keys). -/
theorem C6_cache_bound_and_hit {τ : Type} (gunzip : List ℕ → Except Unit (List ℕ))
    (decode : List ℕ → Except Unit τ) (fetch : ℕ → ℕ → ℕ → List ℕ)
    (size : ℕ) (calls : List (ℕ × ℕ × ℕ)) :
    (runTiles gunzip decode fetch calls (initCache τ size)).cache.length ≤ size ∧
    (∀ z x y t,
      mapGet (runTiles gunzip decode fetch calls (initCache τ size)).cache
          (tileKey z x y) = some t →
      getTile gunzip decode fetch (runTiles gunzip decode fetch calls (initCache τ size))
          z x y
        = .ok (t, runTiles gunzip decode fetch calls (initCache τ size), false)) ∧
    (∀ key tile, key ∉ (runTiles gunzip decode fetch calls (initCache τ size)).order →
      (cacheSet (runTiles gunzip decode fetch calls (initCache τ size)) key tile).order
        = ((runTiles gunzip decode fetch calls (initCache τ size)).order ++ [key]).drop
            ((runTiles gunzip decode fetch calls (initCache τ size)).order.length + 1 - size)) := by
  obtain ⟨⟨hmap, hnd⟩, hlen, hsz⟩ := runTiles_inv gunzip decode fetch calls size
  refine ⟨?_, ?_, ?_⟩
  · have e1 : (runTiles gunzip decode fetch calls (initCache τ size)).cache.length
        = ((runTiles gunzip decode fetch calls (initCache τ size)).cache.map Prod.fst).length := by
      rw [List.length_map]
    rw [e1, hmap]
    exact le_of_le_of_eq hlen hsz
  · intro z x y t hget
    unfold getTile
    rw [hget]
  · intro key tile hkey
    obtain ⟨-, horder, -, -⟩ := cacheSet_spec ⟨hmap, hnd⟩ hkey tile
    rw [horder, hsz]

/-- C6 witness: capacity 1, two distinct tile fetches (the second evicts the
first), then a hit on the cached key and the eviction-order law at a fresh
key. -/
theorem C6_cache_bound_and_hit_witness :
    ((runTiles (τ := Unit) (fun _ => .ok []) (fun _ => .ok ()) (fun _ _ _ => [])
        [(0,0,0), (5,5,5)] (initCache Unit 1)).cache.length ≤ 1) ∧
    (getTile (fun _ => .ok []) (fun _ => .ok ()) (fun _ _ _ => [])
        (runTiles (fun _ => .ok []) (fun _ => .ok ()) (fun _ _ _ => [])
          [(0,0,0), (5,5,5)] (initCache Unit 1)) 5 5 5
      = .ok ((), runTiles (fun _ => .ok []) (fun _ => .ok ()) (fun _ _ _ => [])
          [(0,0,0), (5,5,5)] (initCache Unit 1), false)) ∧
    ((cacheSet (runTiles (fun _ => .ok []) (fun _ => .ok ()) (fun _ _ _ => [])
          [(0,0,0), (5,5,5)] (initCache Unit 1)) "9-9-9" ()).order
      = ((runTiles (fun _ => .ok []) (fun _ => .ok ()) (fun _ _ _ => [])
          [(0,0,0), (5,5,5)] (initCache Unit 1)).order ++ ["9-9-9"]).drop
          ((runTiles (fun _ => .ok []) (fun _ => .ok ()) (fun _ _ _ => [])
            [(0,0,0), (5,5,5)] (initCache Unit 1)).order.length + 1 - 1)) :=
  ⟨(C6_cache_bound_and_hit (fun _ => .ok []) (fun _ => .ok ()) (fun _ _ _ => [])
      1 [(0,0,0), (5,5,5)]).1,
   (C6_cache_bound_and_hit (fun _ => .ok []) (fun _ => .ok ()) (fun _ _ _ => [])
      1 [(0,0,0), (5,5,5)]).2.1 5 5 5 () (by decide),
   (C6_cache_bound_and_hit (fun _ => .ok []) (fun _ => .ok ()) (fun _ _ _ => [])
      1 [(0,0,0), (5,5,5)]).2.2 "9-9-9" () (by decide)⟩

/-- C1 counterexample: with corrupt gzip bytes `0x1f 0x8b` (truncated gzip
data, on which `gunzipSync` throws) and an empty cache, `getTile` returns the
decode error to its caller rather than a `ParsedTile` — `parseTile` is not
wrapped in any `try`/`catch` inside the tile source. -/
theorem C1_counterexample :
    getTile (τ := Unit) (fun _ => .error ()) (fun _ => .ok ())
      (fun _ _ _ => [0x1f, 0x8b]) (initCache Unit 32) 3 1 2 = .error () := by
  rfl

/-- C1 (amended): a decode failure is not absorbed inside
`TileSource.getTile`: on a cache miss whose bytes fail to decode, the error
propagates out of `getTile`; it is the per-tile `try`/`catch` in
`MapRenderer.draw` that absorbs it, treating the tile as absent, so the
pipeline does not crash.  Cache hits and successful decodes return
`ParsedTile`s as before. -/
theorem C1_decode_error_boundary {τ : Type} (gunzip : List ℕ → Except Unit (List ℕ))
    (decode : List ℕ → Except Unit τ) (fetch : ℕ → ℕ → ℕ → List ℕ)
    (s : TileCache τ) (z x y : ℕ) :
    (mapGet s.cache (tileKey z x y) = none →
      parseTileE gunzip decode (fetch z x y) = .error () →
      getTile gunzip decode fetch s z x y = .error () ∧
      drawFetchTile gunzip decode fetch s z x y = none) ∧
    (∀ t, mapGet s.cache (tileKey z x y) = some t →
      getTile gunzip decode fetch s z x y = .ok (t, s, false) ∧
      drawFetchTile gunzip decode fetch s z x y = some t) ∧
    (∀ parsed, mapGet s.cache (tileKey z x y) = none →
      parseTileE gunzip decode (fetch z x y) = .ok parsed →
      getTile gunzip decode fetch s z x y
          = .ok (parsed, cacheSet s (tileKey z x y) parsed, true) ∧
      drawFetchTile gunzip decode fetch s z x y = some parsed) := by
  refine ⟨?_, ?_, ?_⟩
  · intro hget hp
    have hg : getTile gunzip decode fetch s z x y = .error () := by
      unfold getTile
      rw [hget, hp]
    exact ⟨hg, by unfold drawFetchTile; rw [hg]⟩
  · intro t hget
    have hg : getTile gunzip decode fetch s z x y = .ok (t, s, false) := by
      unfold getTile
      rw [hget]
    exact ⟨hg, by unfold drawFetchTile; rw [hg]⟩
  · intro parsed hget hp
    have hg : getTile gunzip decode fetch s z x y
        = .ok (parsed, cacheSet s (tileKey z x y) parsed, true) := by
      unfold getTile
      rw [hget, hp]
    exact ⟨hg, by unfold drawFetchTile; rw [hg]⟩

/-- C1 witness: the boundary theorem applied at the corrupt-gzip input of the
counterexample — the error leaves `getTile` but `draw`'s wrapper absorbs it. -/
theorem C1_decode_error_boundary_witness :
    getTile (τ := Unit) (fun _ => .error ()) (fun _ => .ok ())
        (fun _ _ _ => [0x1f, 0x8b]) (initCache Unit 32) 3 1 2 = .error () ∧
    drawFetchTile (τ := Unit) (fun _ => .error ()) (fun _ => .ok ())
        (fun _ _ _ => [0x1f, 0x8b]) (initCache Unit 32) 3 1 2 = none :=
  (C1_decode_error_boundary (fun _ => .error ()) (fun _ => .ok ())
      (fun _ _ _ => [0x1f, 0x8b]) (initCache Unit 32) 3 1 2).1 rfl rfl

/-- C3 (amended): `fitBounds([{53.30,-6.30},{53.40,-6.20}])` with the default
padding 0.2 centres on `{lat: 53.35, lon: -6.25}` but selects zoom 10, not
12: the span compared against the bucket table is the raw 0.1° span inflated
by the padding factor 1.2 to 0.12, which falls in the `[0.1, 0.5)` bucket. -/
theorem C3_fitBounds_center_zoom (r : RendererQ) :
    (fitBoundsQ r [⟨53.30, -6.30⟩, ⟨53.40, -6.20⟩] (1/5)).center = ⟨53.35, -6.25⟩ ∧
    (fitBoundsQ r [⟨53.30, -6.30⟩, ⟨53.40, -6.20⟩] (1/5)).zoom = 10 := by
  unfold fitBoundsQ foldMinQ foldMaxQ normalizeLL clamp
  norm_num

/-- C3 counterexample: the scenario's zoom is not 12 — the code puts the
padded span 0.12 in the `[0.1, 0.5)` bucket, yielding zoom 10. -/
theorem C3_counterexample :
    (fitBoundsQ rendererDefault [⟨53.30, -6.30⟩, ⟨53.40, -6.20⟩] (1/5)).zoom ≠ 12 := by
  unfold fitBoundsQ foldMinQ foldMaxQ normalizeLL clamp
  norm_num



theorem normalizeLL_lat_bounds (ll : LatLon) :
    -85.0511 ≤ (normalizeLL ll).lat ∧ (normalizeLL ll).lat ≤ 85.0511 := by
  unfold normalizeLL
  exact ⟨le_clamp (by norm_num), clamp_le (by norm_num)⟩

set_option maxHeartbeats 1000000 in
theorem applyRMutator_inv (m : MercModel) {r : RendererQ} (h : ZoomLatInv r)
    (op : RMutator) : ZoomLatInv (applyRMutator m r op) := by
  obtain ⟨h1, h2, h3, h4⟩ := h
  unfold MIN_ZOOM MAX_ZOOM at *
  cases op with
  | pan dx dy =>
    obtain ⟨g1, g2⟩ := normalizeLL_lat_bounds
      ⟨m.invLat (m.mercY r.center.lat (baseZoomQ r.zoom) + dy / m.tsz r.zoom) (baseZoomQ r.zoom),
       ((r.center.lon + 180) / 360 * (2:ℚ)^(baseZoomQ r.zoom) + dx / m.tsz r.zoom)
         / (2:ℚ)^(baseZoomQ r.zoom) * 360 - 180⟩
    exact ⟨h1, h2, g1, g2⟩
  | panLeft =>
    refine ⟨h1, h2, ?_, ?_⟩ <;> simp only [applyRMutator, panQ] <;>
      [exact (normalizeLL_lat_bounds _).1; exact (normalizeLL_lat_bounds _).2]
  | panRight =>
    refine ⟨h1, h2, ?_, ?_⟩ <;> simp only [applyRMutator, panQ] <;>
      [exact (normalizeLL_lat_bounds _).1; exact (normalizeLL_lat_bounds _).2]
  | panUp =>
    refine ⟨h1, h2, ?_, ?_⟩ <;> simp only [applyRMutator, panQ] <;>
      [exact (normalizeLL_lat_bounds _).1; exact (normalizeLL_lat_bounds _).2]
  | panDown =>
    refine ⟨h1, h2, ?_, ?_⟩ <;> simp only [applyRMutator, panQ] <;>
      [exact (normalizeLL_lat_bounds _).1; exact (normalizeLL_lat_bounds _).2]
  | zoomIn =>
    refine ⟨?_, ?_, h3, h4⟩ <;>
      simp only [applyRMutator, zoomInQ, MIN_ZOOM, MAX_ZOOM, ZOOM_STEP]
    · exact le_min (by norm_num) (by linarith)
    · exact min_le_left _ _
  | zoomOut =>
    refine ⟨?_, ?_, h3, h4⟩ <;>
      simp only [applyRMutator, zoomOutQ, MIN_ZOOM, MAX_ZOOM, ZOOM_STEP]
    · exact le_max_left _ _
    · exact max_le (by norm_num) (by linarith)
  | centerOn ll =>
    exact ⟨h1, h2, (normalizeLL_lat_bounds ll).1, (normalizeLL_lat_bounds ll).2⟩
  | setWaypoint ll => exact ⟨h1, h2, h3, h4⟩
  | fitBounds points padding =>
    simp only [applyRMutator]
    unfold fitBoundsQ
    cases points with
    | nil => exact ⟨h1, h2, h3, h4⟩
    | cons p rest =>
      dsimp only
      have key : ∀ s : ℚ, (0:ℚ) ≤ (if s < 1/1000 then (17:ℚ)
            else if s < 5/1000 then 16 else if s < 1/100 then 15
            else if s < 5/100 then 13 else if s < 1/10 then 12
            else if s < 1/2 then 10 else if s < 1 then 9
            else if s < 2 then 8 else if s < 5 then 7
            else if s < 10 then 6 else 5) ∧
          (if s < 1/1000 then (17:ℚ)
            else if s < 5/1000 then 16 else if s < 1/100 then 15
            else if s < 5/100 then 13 else if s < 1/10 then 12
            else if s < 1/2 then 10 else if s < 1 then 9
            else if s < 2 then 8 else if s < 5 then 7
            else if s < 10 then 6 else 5) ≤ 18 := by
        intro s
        split_ifs <;> exact ⟨by norm_num, by norm_num⟩
      exact ⟨(key _).1, (key _).2,
        (normalizeLL_lat_bounds _).1, (normalizeLL_lat_bounds _).2⟩

/-- C4 (amended): starting from any state whose zoom is in
`[MIN_ZOOM, MAX_ZOOM]` and latitude in `[-85.0511, 85.0511]` (the
constructor's default state qualifies), every sequence of
pan / panLeft / panRight / panUp / panDown / zoomIn / zoomOut / centerOn /
setWaypoint / fitBounds calls with arbitrary arguments preserves both
bounds.  The longitude half of the claim is false (see the counterexample):
`normalize` applies at most one ±360 wrap. -/
theorem C4_state_invariants (m : MercModel) (r : RendererQ) (h : ZoomLatInv r)
    (ops : List RMutator) : ZoomLatInv (ops.foldl (applyRMutator m) r) := by
  induction ops generalizing r with
  | nil => exact h
  | cons op rest ih => exact ih _ (applyRMutator_inv m h op)

/-- C4 witness: the invariant theorem applied to the default state and a
sequence touching pan, zoom and fitBounds. -/
theorem rendererDefault_inv : ZoomLatInv rendererDefault := by
  unfold ZoomLatInv rendererDefault MIN_ZOOM MAX_ZOOM
  norm_num

theorem C4_state_invariants_witness :
    ZoomLatInv rendererDefault ∧
    ZoomLatInv (([.zoomIn, .panLeft, .pan 5 (-7), .centerOn ⟨90, 10⟩,
        .fitBounds [⟨1, 1⟩, ⟨2, 2⟩] (1/5), .zoomOut, .setWaypoint ⟨0, 0⟩] :
        List RMutator).foldl (applyRMutator mercModel0) rendererDefault) :=
  ⟨rendererDefault_inv,
   C4_state_invariants mercModel0 rendererDefault rendererDefault_inv _⟩

/-- C4 counterexample: `centerOn({lat: 0, lon: 1000})` leaves the longitude at
640, outside `[-180, 180]` — `normalize` wraps only once — refuting the
longitude clause for arbitrary arguments. -/
theorem C4_counterexample :
    (applyRMutator mercModel0 rendererDefault (.centerOn ⟨0, 1000⟩)).center.lon = 640 ∧
    ¬ ((applyRMutator mercModel0 rendererDefault (.centerOn ⟨0, 1000⟩)).center.lon ≤ 180) := by
  unfold applyRMutator centerOnQ normalizeLL clamp
  norm_num

theorem getD_replicate_self {α : Type} (n i : ℕ) (a : α) :
    (List.replicate n a).getD i a = a := by
  rw [List.getD_eq_getElem?_getD, List.getElem?_replicate]
  split_ifs <;> rfl

theorem plainRowGo_clear (b : BrailleBuffer) (cy : ℕ) (idxs : List ℕ) :
    plainRowGo b.clear cy idxs 0 = idxs.map (fun _ => brailleChar 0) := by
  induction idxs with
  | nil => rfl
  | cons cx rest ih =>
    have h1 : b.clear.ch.getD (cy * b.clear.charWidth + cx) none = none := by
      unfold BrailleBuffer.clear
      exact getD_replicate_self _ _ _
    have h2 : b.clear.pixel.getD (cy * b.clear.charWidth + cx) 0 = 0 := by
      unfold BrailleBuffer.clear
      exact getD_replicate_self _ _ _
    simp only [plainRowGo, h1, h2, gt_iff_lt, lt_irrefl, if_neg (by omega : ¬ 0 > 0)]
    rw [ih]
    rfl

theorem toPlainLines_clear (b : BrailleBuffer) :
    b.clear.toPlainLines
      = (List.range b.charHeight).map (fun _ => List.replicate b.charWidth (brailleChar 0)) := by
  unfold BrailleBuffer.toPlainLines
  have hh : b.clear.charHeight = b.charHeight := rfl
  have hw : b.clear.charWidth = b.charWidth := rfl
  rw [hh, hw]
  refine List.map_congr_left ?_
  intro cy _
  rw [plainRowGo_clear]
  rw [List.map_const', List.length_range]

/-- C2 (amended): a `draw()` call that finds the renderer mid-draw (the latch
set by the in-flight call's synchronous prefix) returns immediately — a pure
read that cannot raise or touch the shared buffers — but what it returns is
the export of the shared canvas in its current mid-draw state, which the
prefix has just cleared to background-only braille cells: NOT the previous
frame's content.  Centre and zoom are the live state's values. -/
theorem C2_busy_draw (scaleFn : ℚ → ℚ → List Char) (bg : Option ℕ)
    (r0 : RendererDrawState) :
    (drawPrefix bg r0).isDrawing = true ∧
    drawBusy scaleFn (drawPrefix bg r0) = exportResult scaleFn (drawPrefix bg r0) ∧
    (drawBusy scaleFn (drawPrefix bg r0)).plainLines
      = (List.range r0.canvas.charHeight).map
          (fun _ => List.replicate r0.canvas.charWidth (brailleChar 0)) ∧
    (drawBusy scaleFn (drawPrefix bg r0)).center = r0.center ∧
    (drawBusy scaleFn (drawPrefix bg r0)).zoom = r0.zoom := by
  refine ⟨rfl, rfl, ?_, rfl, rfl⟩
  show (drawPrefix bg r0).canvas.toPlainLines = _
  unfold drawPrefix
  cases bg with
  | none => exact toPlainLines_clear r0.canvas
  | some c => exact toPlainLines_clear { r0.canvas with globalBackground := c }

/-- C2 counterexample: with a previous completed frame holding one set pixel,
the busy early return after the new draw's clearing prefix differs from the
previous frame's output — the claim's "exactly the same frame content as if
the second call had not been made" fails. -/
theorem C2_counterexample :
    (drawBusy (fun _ _ => []) (drawPrefix (some 0)
        ⟨(mkBuffer 2 4).setPixel 0 0 3, [], false, ⟨0, 0⟩, 12⟩)).plainLines
      ≠ (drawBusy (fun _ _ => [])
          ⟨(mkBuffer 2 4).setPixel 0 0 3, [], false, ⟨0, 0⟩, 12⟩).plainLines := by
  decide

theorem mercator_lat_core {lat : ℝ} (hlat : |lat| < 85.0511) :
    Real.arctan (Real.sinh (Real.log
      (Real.tan (lat * Real.pi / 180) + 1 / Real.cos (lat * Real.pi / 180))))
    = lat * Real.pi / 180 := by
  have hπ := Real.pi_pos
  set θ := lat * Real.pi / 180 with hθdef
  have habs : |θ| < Real.pi / 2 := by
    have h1 : |θ| = |lat| * (Real.pi / 180) := by
      rw [hθdef, mul_div_assoc, abs_mul, abs_of_pos (by positivity : (0:ℝ) < Real.pi / 180)]
    rw [h1]
    calc |lat| * (Real.pi / 180) < 85.0511 * (Real.pi / 180) := by
          exact mul_lt_mul_of_pos_right hlat (by positivity)
      _ < 90 * (Real.pi / 180) := by
          exact mul_lt_mul_of_pos_right (by norm_num) (by positivity)
      _ = Real.pi / 2 := by ring
  obtain ⟨hθ1, hθ2⟩ := abs_lt.mp habs
  have hθ1' : -(Real.pi / 2) < θ := by linarith
  have hcos : 0 < Real.cos θ := Real.cos_pos_of_mem_Ioo ⟨hθ1', hθ2⟩
  have hsin : 0 < 1 + Real.sin θ := by
    nlinarith [Real.sin_sq_add_cos_sq θ, Real.neg_one_le_sin θ, Real.sin_le_one θ,
      mul_pos hcos hcos]
  have hcne : Real.cos θ ≠ 0 := ne_of_gt hcos
  have hueq : Real.tan θ + 1 / Real.cos θ = (Real.sin θ + 1) / Real.cos θ := by
    rw [Real.tan_eq_sin_div_cos]
    ring
  have hu : 0 < Real.tan θ + 1 / Real.cos θ := by
    rw [hueq]
    exact div_pos (by linarith) hcos
  have hsl : Real.sinh (Real.log (Real.tan θ + 1 / Real.cos θ)) = Real.tan θ := by
    rw [Real.sinh_log hu, hueq, Real.tan_eq_sin_div_cos]
    have hs1 : Real.sin θ + 1 ≠ 0 := by linarith
    rw [inv_div]
    rw [div_sub_div _ _ hcne hs1]
    have hnum : (Real.sin θ + 1) * (Real.sin θ + 1) - Real.cos θ * Real.cos θ
        = 2 * Real.sin θ * (Real.sin θ + 1) := by
      nlinarith [Real.sin_sq_add_cos_sq θ]
    rw [hnum]
    field_simp
    ring
  rw [hsl]
  exact Real.arctan_tan hθ1' hθ2

/-- C8: over the idealised real-number model of `ll2tile`/`tile2ll` (the
exact formulas of `utils.ts` with `Math.PI = π` and `rad2deg`'s literal
`57.29577951308232` kept exact), for every longitude in `[-180, 180]`,
latitude strictly inside the Mercator clamp range and natural zoom, the
round trip recovers the longitude exactly and the latitude to within
`10^-13` degrees (the only error being `rad2deg`'s finite decimal literal
for `180/π`). -/
theorem C8_roundtrip (lon lat : ℝ) (z : ℕ)
    (hlon1 : -180 ≤ lon) (hlon2 : lon ≤ 180) (hlat : |lat| < 85.0511) :
    tile2llLon (ll2tileX lon z) z = lon ∧
    |tile2llLat (ll2tileY lat z) z - lat| ≤ 1 / 10^13 := by
  have h2z : ((2:ℝ)^z) ≠ 0 := pow_ne_zero z two_ne_zero
  have hπ := Real.pi_pos
  constructor
  · unfold tile2llLon ll2tileX
    field_simp
    ring
  · unfold tile2llLat ll2tileY
    have hn : Real.pi - 2 * Real.pi *
        (((1 - Real.log (Real.tan (lat * Real.pi / 180)
            + 1 / Real.cos (lat * Real.pi / 180)) / Real.pi) / 2) * (2:ℝ)^z) / (2:ℝ)^z
        = Real.log (Real.tan (lat * Real.pi / 180) + 1 / Real.cos (lat * Real.pi / 180)) := by
      field_simp
      ring
    rw [hn]
    have hsinh : (0.5 : ℝ) * (Real.exp (Real.log (Real.tan (lat * Real.pi / 180)
          + 1 / Real.cos (lat * Real.pi / 180)))
        - Real.exp (-(Real.log (Real.tan (lat * Real.pi / 180)
          + 1 / Real.cos (lat * Real.pi / 180)))))
        = Real.sinh (Real.log (Real.tan (lat * Real.pi / 180)
            + 1 / Real.cos (lat * Real.pi / 180))) := by
      rw [Real.sinh_eq]
      ring
    rw [hsinh, mercator_lat_core hlat]
    unfold rad2degR
    have key : lat * Real.pi / 180 * 57.29577951308232 - lat
        = lat * (Real.pi * 57.29577951308232 / 180 - 1) := by ring
    rw [key, abs_mul]
    have hfac : |Real.pi * 57.29577951308232 / 180 - 1| ≤ 2 / 10^17 := by
      have hgt := Real.pi_gt_d20
      have hlt := Real.pi_lt_d20
      rw [abs_le]
      constructor <;> nlinarith [hgt, hlt]
    calc |lat| * |Real.pi * 57.29577951308232 / 180 - 1|
        ≤ 85.0511 * (2 / 10^17) := by
          exact mul_le_mul (le_of_lt hlat) hfac (abs_nonneg _) (by norm_num)
      _ ≤ 1 / 10^13 := by norm_num

/-- C8 witness: the round-trip theorem applied at Dublin's coordinates
(lon −6.2603, lat 53.3498) and zoom 12. -/
theorem C8_roundtrip_witness :
    (-180 ≤ (-6.2603 : ℝ) ∧ (-6.2603 : ℝ) ≤ 180 ∧ |(53.3498 : ℝ)| < 85.0511) ∧
    (tile2llLon (ll2tileX (-6.2603) 12) 12 = -6.2603 ∧
     |tile2llLat (ll2tileY 53.3498 12) 12 - 53.3498| ≤ 1 / 10^13) :=
  ⟨⟨by norm_num, by norm_num, by rw [abs_of_pos] <;> norm_num⟩,
   C8_roundtrip (-6.2603) 53.3498 12 (by norm_num) (by norm_num)
     (by rw [abs_of_pos] <;> norm_num)⟩

end PipBoy
